import Mathlib

/-!
Verification development for the FireFly 2D simulation core.

The definitions in this file are a shallow embedding of the Python source:
`core/fire.py` (stochastic cellular-automaton wildfire with incident
suppression) and `core/drone.py` (sensor fleet with belief-grid planner and
debounced detection).  Python floats are idealised as elements of a linear
ordered field; definitions that are pure field arithmetic are stated over a
generic `K` so that they can be evaluated at `ℚ` and reasoned about at `ℝ`;
definitions that need transcendental functions (`exp`, `sqrt`, `cos`, `sin`,
`tan`, real powers) are stated over `ℝ`.  The pseudo-random generator is
modelled as an input stream of draws together with a cursor: `random.random()
< p` becomes `stream k < p` with the cursor advanced to `k + 1`.
-/

set_option autoImplicit false

/-! ### Belief grid (per-sensor planner), from `drone.py::Drone._observation_update` -/

/-- A per-sensor routing belief: a grid of `ny` rows by `nx` columns of mass
values anchored at world position (`left`, `top`) with square cells of side
`cell`, as built in `Drone.__init__` (fields `grid_origin`, `grid_dims`,
`belief`). -/
structure Belief (K : Type) where
  nx : ℕ
  ny : ℕ
  left : K
  top : K
  cell : K
  g : ℕ → ℕ → K

variable {K : Type} [LinearOrderedField K]

/-- Center x-coordinate of column `ix`: `left0 + (ix + 0.5) * c`. -/
def cellCx (b : Belief K) (ix : ℕ) : K := b.left + ((ix : K) + 1/2) * b.cell

/-- Center y-coordinate of row `jy`: `top0 + (jy + 0.5) * c`. -/
def cellCy (b : Belief K) (jy : ℕ) : K := b.top + ((jy : K) + 1/2) * b.cell

/-- Disc membership test used by the observation update:
`dx * dx + dy2 <= r2` for the cell center of row `jy`, column `ix`. -/
def inDisc (b : Belief K) (cx cy r : K) (jy ix : ℕ) : Prop :=
  (cellCx b ix - cx) * (cellCx b ix - cx) + (cellCy b jy - cy) * (cellCy b jy - cy) ≤ r * r

instance (b : Belief K) (cx cy r : K) (jy ix : ℕ) : Decidable (inDisc b cx cy r jy ix) := by
  unfold inDisc; infer_instance

/-- First pass of the observation update: each cell whose center lies in the
disc is scaled by `(1 - detect)`; other cells are unchanged. -/
def attenuate (detect : K) (b : Belief K) (cx cy r : K) : ℕ → ℕ → K :=
  fun jy ix => if inDisc b cx cy r jy ix then b.g jy ix * (1 - detect) else b.g jy ix

/-- Total mass of an `ny` by `nx` grid (the `ssum` / `total` accumulators). -/
def gridSum (nx ny : ℕ) (g : ℕ → ℕ → K) : K :=
  ∑ jy ∈ Finset.range ny, ∑ ix ∈ Finset.range nx, g jy ix

/-- The uniform grid `1 / (nx * ny)` used on mass underflow. -/
def uniformGrid (nx ny : ℕ) : ℕ → ℕ → K :=
  fun _ _ => 1 / ((nx : K) * (ny : K))

/-- Five-point stencil sum of the diffusion step: the cell itself plus its
in-grid left/right/up/down neighbours. -/
def stencilSum (nx ny : ℕ) (g : ℕ → ℕ → K) (jy ix : ℕ) : K :=
  g jy ix + (if 0 < ix then g jy (ix - 1) else 0) + (if ix + 1 < nx then g jy (ix + 1) else 0)
    + (if 0 < jy then g (jy - 1) ix else 0) + (if jy + 1 < ny then g (jy + 1) ix else 0)

/-- Number of cells contributing to the stencil (`cnt` in the source). -/
def stencilCnt (nx ny : ℕ) (jy ix : ℕ) : ℕ :=
  1 + (if 0 < ix then 1 else 0) + (if ix + 1 < nx then 1 else 0)
    + (if 0 < jy then 1 else 0) + (if jy + 1 < ny then 1 else 0)

/-- Diffusion step: `new[jy][ix] = (1 - d) * center + d * (nsum / cnt)`. -/
def diffuse (d : K) (nx ny : ℕ) (g : ℕ → ℕ → K) : ℕ → ℕ → K :=
  fun jy ix => (1 - d) * g jy ix + d * (stencilSum nx ny g jy ix / (stencilCnt nx ny jy ix : K))

/-- Renormalisation stage of the observation update: if the post-attenuation
mass `ssum` is at most `1e-12` the grid collapses to uniform, otherwise every
cell is scaled by `inv = 1 / ssum`. -/
def normStage (detect : K) (b : Belief K) (cx cy r : K) : ℕ → ℕ → K :=
  if gridSum b.nx b.ny (attenuate detect b cx cy r) ≤ 1 / 10 ^ 12 then uniformGrid b.nx b.ny
  else fun jy ix =>
    attenuate detect b cx cy r jy ix * (1 / gridSum b.nx b.ny (attenuate detect b cx cy r))

/-- Diffusion stage of the observation update: the diffused grid rescaled by
`inv = 1 / max(total, 1e-12)`. -/
def diffStage (d : K) (nx ny : ℕ) (g : ℕ → ℕ → K) : ℕ → ℕ → K :=
  fun jy ix => diffuse d nx ny g jy ix * (1 / max (gridSum nx ny (diffuse d nx ny g)) (1 / 10 ^ 12))

/-- One observation update of a sensor belief at position (`cx`, `cy`) with
footprint radius `r`, detection strength `detect` and diffusion weight `d`,
following `Drone._observation_update`: attenuate in the disc, renormalise
(collapsing to uniform if the post-attenuation mass is at most `1e-12`),
then, when `d > 0`, diffuse and renormalise by `1 / max(total, 1e-12)`. -/
def obsUpdate (detect d : K) (b : Belief K) (cx cy r : K) : Belief K :=
  if 0 < d then { b with g := diffStage d b.nx b.ny (normStage detect b cx cy r) }
  else { b with g := normStage detect b cx cy r }

/-! ### Mass-conservation lemmas for the observation update (claim C4) -/

theorem gridSum_nonneg {nx ny : ℕ} {g : ℕ → ℕ → K} (h : ∀ jy ix, 0 ≤ g jy ix) :
    0 ≤ gridSum nx ny g :=
  Finset.sum_nonneg fun _ _ => Finset.sum_nonneg fun _ _ => h _ _

theorem gridSum_mono {nx ny : ℕ} {f g : ℕ → ℕ → K} (h : ∀ jy ix, f jy ix ≤ g jy ix) :
    gridSum nx ny f ≤ gridSum nx ny g :=
  Finset.sum_le_sum fun _ _ => Finset.sum_le_sum fun _ _ => h _ _

theorem gridSum_mul_right (nx ny : ℕ) (g : ℕ → ℕ → K) (c : K) :
    gridSum nx ny (fun jy ix => g jy ix * c) = gridSum nx ny g * c := by
  simp [gridSum, Finset.sum_mul]

theorem gridSum_add (nx ny : ℕ) (f g : ℕ → ℕ → K) :
    gridSum nx ny (fun jy ix => f jy ix + g jy ix) = gridSum nx ny f + gridSum nx ny g := by
  simp [gridSum, Finset.sum_add_distrib]

theorem gridSum_uniform {nx ny : ℕ} (hx : 1 ≤ nx) (hy : 1 ≤ ny) :
    gridSum nx ny (uniformGrid (K := K) nx ny) = 1 := by
  have hnx : (nx : K) ≠ 0 := Nat.cast_ne_zero.2 (by omega)
  have hny : (ny : K) ≠ 0 := Nat.cast_ne_zero.2 (by omega)
  simp only [gridSum, uniformGrid, Finset.sum_const, Finset.card_range, nsmul_eq_mul]
  field_simp
  ring

theorem attenuate_nonneg {detect : K} {b : Belief K} {cx cy r : K}
    (hg : ∀ jy ix, 0 ≤ b.g jy ix) (hdet : detect ≤ 1) :
    ∀ jy ix, 0 ≤ attenuate detect b cx cy r jy ix := by
  intro jy ix
  unfold attenuate
  split_ifs
  · exact mul_nonneg (hg jy ix) (by linarith)
  · exact hg jy ix

theorem stencilCnt_pos (nx ny jy ix : ℕ) : 1 ≤ stencilCnt nx ny jy ix := by
  unfold stencilCnt; split_ifs <;> omega

theorem stencilCnt_le_five (nx ny jy ix : ℕ) : stencilCnt nx ny jy ix ≤ 5 := by
  unfold stencilCnt; split_ifs <;> omega

theorem ite_term_nonneg {c : Prop} [Decidable c] {x : K} (hx : 0 ≤ x) :
    0 ≤ if c then x else 0 := by
  split_ifs
  · exact hx
  · exact le_refl 0

theorem stencilSum_nonneg {nx ny : ℕ} {g : ℕ → ℕ → K} (hg : ∀ jy ix, 0 ≤ g jy ix)
    (jy ix : ℕ) : 0 ≤ stencilSum nx ny g jy ix := by
  unfold stencilSum
  have h0 := hg jy ix
  have h1 : (0 : K) ≤ if 0 < ix then g jy (ix - 1) else 0 := ite_term_nonneg (hg _ _)
  have h2 : (0 : K) ≤ if ix + 1 < nx then g jy (ix + 1) else 0 := ite_term_nonneg (hg _ _)
  have h3 : (0 : K) ≤ if 0 < jy then g (jy - 1) ix else 0 := ite_term_nonneg (hg _ _)
  have h4 : (0 : K) ≤ if jy + 1 < ny then g (jy + 1) ix else 0 := ite_term_nonneg (hg _ _)
  linarith

theorem center_le_stencilSum {nx ny : ℕ} {g : ℕ → ℕ → K} (hg : ∀ jy ix, 0 ≤ g jy ix)
    (jy ix : ℕ) : g jy ix ≤ stencilSum nx ny g jy ix := by
  unfold stencilSum
  have h1 : (0 : K) ≤ if 0 < ix then g jy (ix - 1) else 0 := ite_term_nonneg (hg _ _)
  have h2 : (0 : K) ≤ if ix + 1 < nx then g jy (ix + 1) else 0 := ite_term_nonneg (hg _ _)
  have h3 : (0 : K) ≤ if 0 < jy then g (jy - 1) ix else 0 := ite_term_nonneg (hg _ _)
  have h4 : (0 : K) ≤ if jy + 1 < ny then g (jy + 1) ix else 0 := ite_term_nonneg (hg _ _)
  linarith

theorem stencil_div_ge {nx ny : ℕ} {g : ℕ → ℕ → K} (hg : ∀ jy ix, 0 ≤ g jy ix) (jy ix : ℕ) :
    g jy ix / 5 ≤ stencilSum nx ny g jy ix / (stencilCnt nx ny jy ix : K) := by
  have h1 : g jy ix ≤ stencilSum nx ny g jy ix := center_le_stencilSum hg jy ix
  have h2 : (0 : K) < (stencilCnt nx ny jy ix : K) := by
    exact_mod_cast Nat.lt_of_lt_of_le Nat.zero_lt_one (stencilCnt_pos nx ny jy ix)
  have h3 : ((stencilCnt nx ny jy ix : K)) ≤ 5 := by
    exact_mod_cast stencilCnt_le_five nx ny jy ix
  calc g jy ix / 5 ≤ stencilSum nx ny g jy ix / 5 := by
        exact (div_le_div_iff_of_pos_right (by norm_num)).2 h1
  _ ≤ stencilSum nx ny g jy ix / (stencilCnt nx ny jy ix : K) :=
        div_le_div_of_nonneg_left (stencilSum_nonneg hg jy ix) h2 h3

theorem diffuse_nonneg {d : K} {nx ny : ℕ} {g : ℕ → ℕ → K}
    (hg : ∀ jy ix, 0 ≤ g jy ix) (hd0 : 0 ≤ d) (hd1 : d ≤ 1) :
    ∀ jy ix, 0 ≤ diffuse d nx ny g jy ix := by
  intro jy ix
  unfold diffuse
  have h2 : (0 : K) < (stencilCnt nx ny jy ix : K) := by
    exact_mod_cast Nat.lt_of_lt_of_le Nat.zero_lt_one (stencilCnt_pos nx ny jy ix)
  have := @stencilSum_nonneg K _ nx ny g hg jy ix
  have hdiv : 0 ≤ stencilSum nx ny g jy ix / (stencilCnt nx ny jy ix : K) := by positivity
  nlinarith [hg jy ix]

theorem stencilSum_const (nx ny jy ix : ℕ) (c : K) :
    stencilSum nx ny (fun _ _ => c) jy ix = (stencilCnt nx ny jy ix : K) * c := by
  unfold stencilSum stencilCnt
  split_ifs <;> push_cast <;> ring

theorem diffuse_uniform (d : K) (nx ny : ℕ) :
    diffuse d nx ny (uniformGrid nx ny) = uniformGrid (K := K) nx ny := by
  funext jy ix
  have h2 : ((stencilCnt nx ny jy ix : K)) ≠ 0 := by
    have := stencilCnt_pos nx ny jy ix
    exact Nat.cast_ne_zero.2 (by omega)
  show (1 - d) * uniformGrid nx ny jy ix
      + d * (stencilSum nx ny (uniformGrid nx ny) jy ix / (stencilCnt nx ny jy ix : K))
      = uniformGrid (K := K) nx ny jy ix
  rw [show stencilSum nx ny (uniformGrid nx ny) jy ix
        = (stencilCnt nx ny jy ix : K) * uniformGrid nx ny jy ix from stencilSum_const nx ny jy ix _]
  rw [mul_comm ((stencilCnt nx ny jy ix : K)) (uniformGrid nx ny jy ix), mul_div_assoc,
    div_self h2, mul_one]
  ring

theorem gridSum_mul_left (nx ny : ℕ) (g : ℕ → ℕ → K) (c : K) :
    gridSum nx ny (fun jy ix => c * g jy ix) = c * gridSum nx ny g := by
  simp [gridSum, Finset.mul_sum]

theorem gridSum_div (nx ny : ℕ) (g : ℕ → ℕ → K) (c : K) :
    gridSum nx ny (fun jy ix => g jy ix / c) = gridSum nx ny g / c := by
  simp [gridSum, Finset.sum_div]

theorem normStage_nonneg {detect : K} {b : Belief K} {cx cy r : K}
    (hg : ∀ jy ix, 0 ≤ b.g jy ix) (hdet1 : detect ≤ 1) :
    ∀ jy ix, 0 ≤ normStage detect b cx cy r jy ix := by
  intro jy ix
  unfold normStage
  split_ifs with h
  · unfold uniformGrid; positivity
  · push_neg at h
    have hs : (0 : K) < gridSum b.nx b.ny (attenuate detect b cx cy r) :=
      lt_trans (by positivity) h
    exact mul_nonneg (attenuate_nonneg hg hdet1 jy ix) (by positivity)

theorem normStage_sum {detect : K} {b : Belief K} {cx cy r : K}
    (hnx : 1 ≤ b.nx) (hny : 1 ≤ b.ny) :
    gridSum b.nx b.ny (normStage detect b cx cy r) = 1 := by
  unfold normStage
  split_ifs with h
  · exact gridSum_uniform hnx hny
  · push_neg at h
    have hs : (0 : K) < gridSum b.nx b.ny (attenuate detect b cx cy r) :=
      lt_trans (by positivity) h
    rw [gridSum_mul_right, mul_one_div, div_self hs.ne']

theorem normStage_underflow {detect : K} {b : Belief K} {cx cy r : K}
    (h : gridSum b.nx b.ny (attenuate detect b cx cy r) ≤ 1 / 10 ^ 12) :
    normStage detect b cx cy r = uniformGrid b.nx b.ny := by
  unfold normStage
  rw [if_pos h]

theorem diffStage_nonneg {d : K} {nx ny : ℕ} {g : ℕ → ℕ → K}
    (hg : ∀ jy ix, 0 ≤ g jy ix) (hd0 : 0 ≤ d) (hd1 : d ≤ 1) :
    ∀ jy ix, 0 ≤ diffStage d nx ny g jy ix := by
  intro jy ix
  unfold diffStage
  have hmax : (0 : K) < max (gridSum nx ny (diffuse d nx ny g)) (1 / 10 ^ 12) :=
    lt_of_lt_of_le (by positivity) (le_max_right _ _)
  exact mul_nonneg (diffuse_nonneg hg hd0 hd1 jy ix) (by positivity)

theorem gridSum_diffuse (d : K) (nx ny : ℕ) (g : ℕ → ℕ → K) :
    gridSum nx ny (diffuse d nx ny g) = (1 - d) * gridSum nx ny g
      + d * gridSum nx ny
          (fun jy ix => stencilSum nx ny g jy ix / (stencilCnt nx ny jy ix : K)) := by
  simp only [diffuse, gridSum, Finset.sum_add_distrib, ← Finset.mul_sum]

theorem diffuse_sum_lower {d : K} {nx ny : ℕ} {g : ℕ → ℕ → K}
    (hg : ∀ jy ix, 0 ≤ g jy ix) (hsum : gridSum nx ny g = 1) (hd0 : 0 ≤ d) (hd1 : d ≤ 1) :
    1 / 5 ≤ gridSum nx ny (diffuse d nx ny g) := by
  have hst : gridSum nx ny (fun jy ix => g jy ix / 5)
      ≤ gridSum nx ny (fun jy ix => stencilSum nx ny g jy ix / (stencilCnt nx ny jy ix : K)) :=
    gridSum_mono (stencil_div_ge hg)
  rw [gridSum_div, hsum] at hst
  rw [gridSum_diffuse, hsum]
  nlinarith [mul_nonneg hd0 (sub_nonneg.2 hst)]

theorem diffStage_sum {d : K} {nx ny : ℕ} {g : ℕ → ℕ → K}
    (hg : ∀ jy ix, 0 ≤ g jy ix) (hsum : gridSum nx ny g = 1) (hd0 : 0 ≤ d) (hd1 : d ≤ 1) :
    gridSum nx ny (diffStage d nx ny g) = 1 := by
  have hT : 1 / 5 ≤ gridSum nx ny (diffuse d nx ny g) := diffuse_sum_lower hg hsum hd0 hd1
  have heps : (1 : K) / 10 ^ 12 ≤ gridSum nx ny (diffuse d nx ny g) :=
    le_trans (by norm_num) hT
  unfold diffStage
  rw [gridSum_mul_right, max_eq_left heps, mul_one_div,
    div_self (lt_of_lt_of_le (by norm_num : (0 : K) < 1 / 5) hT).ne']

theorem diffStage_uniform (d : K) {nx ny : ℕ} (hnx : 1 ≤ nx) (hny : 1 ≤ ny) :
    diffStage d nx ny (uniformGrid nx ny) = uniformGrid (K := K) nx ny := by
  funext jy ix
  unfold diffStage
  rw [diffuse_uniform, gridSum_uniform hnx hny,
    max_eq_left (by norm_num : (1 : K) / 10 ^ 12 ≤ 1)]
  norm_num

theorem obsUpdate_mass (detect d : K) (b : Belief K) (cx cy r : K)
    (hnx : 1 ≤ b.nx) (hny : 1 ≤ b.ny) (hg : ∀ jy ix, 0 ≤ b.g jy ix)
    (hdet1 : detect ≤ 1) (hd0 : 0 ≤ d) (hd1 : d ≤ 1) :
    (∀ jy ix, 0 ≤ (obsUpdate detect d b cx cy r).g jy ix) ∧
    gridSum b.nx b.ny (obsUpdate detect d b cx cy r).g = 1 ∧
    (gridSum b.nx b.ny (attenuate detect b cx cy r) ≤ 1 / 10 ^ 12 →
      (obsUpdate detect d b cx cy r).g = uniformGrid b.nx b.ny) := by
  have hN := @normStage_nonneg K _ detect b cx cy r hg hdet1
  have hS := @normStage_sum K _ detect b cx cy r hnx hny
  unfold obsUpdate
  split_ifs with hd
  · refine ⟨diffStage_nonneg hN hd0 hd1, diffStage_sum hN hS hd0 hd1, fun h => ?_⟩
    show diffStage d b.nx b.ny (normStage detect b cx cy r) = uniformGrid b.nx b.ny
    rw [normStage_underflow h]
    exact diffStage_uniform d hnx hny
  · exact ⟨hN, hS, fun h => normStage_underflow h⟩

/-- Claim C4: for every sensor belief grid with nonnegative entries summing
to 1, after any observation update (any position and radius, detect strength
in the unit interval, diffusion in the half-open unit interval) every entry
is nonnegative and the total mass equals 1 up to `1e-9`, or the grid is
exactly uniform; moreover the uniform reset is taken whenever the
post-attenuation mass is at most `1e-12`. -/
theorem C4_observation_update_mass (b : Belief ℚ) (cx cy r detect d : ℚ)
    (hnx : 1 ≤ b.nx) (hny : 1 ≤ b.ny)
    (hg : ∀ jy ix, 0 ≤ b.g jy ix) (hsum : gridSum b.nx b.ny b.g = 1)
    (hdet0 : 0 ≤ detect) (hdet1 : detect ≤ 1) (hd0 : 0 ≤ d) (hd1 : d < 1) :
    (∀ jy ix, 0 ≤ (obsUpdate detect d b cx cy r).g jy ix) ∧
    (|gridSum b.nx b.ny (obsUpdate detect d b cx cy r).g - 1| ≤ 1 / 10 ^ 9 ∨
      (obsUpdate detect d b cx cy r).g = uniformGrid b.nx b.ny) ∧
    (gridSum b.nx b.ny (attenuate detect b cx cy r) ≤ 1 / 10 ^ 12 →
      (obsUpdate detect d b cx cy r).g = uniformGrid b.nx b.ny) := by
  obtain ⟨h1, h2, h3⟩ := obsUpdate_mass detect d b cx cy r hnx hny hg hdet1 hd0 hd1.le
  exact ⟨h1, Or.inl (by rw [h2]; norm_num), h3⟩

/-- A concrete one-cell belief grid used to witness the hypotheses of C4. -/
def witBelief : Belief ℚ := ⟨1, 1, 0, 0, 1, fun _ _ => 1⟩

theorem C4_observation_update_mass_witness :
    (1 ≤ witBelief.nx ∧ 1 ≤ witBelief.ny ∧ (∀ jy ix, 0 ≤ witBelief.g jy ix) ∧
      gridSum witBelief.nx witBelief.ny witBelief.g = 1 ∧
      (0 : ℚ) ≤ 0 ∧ (0 : ℚ) ≤ 1 ∧ (0 : ℚ) ≤ 0 ∧ (0 : ℚ) < 1) ∧
    ((∀ jy ix, 0 ≤ (obsUpdate (0 : ℚ) 0 witBelief 0 0 0).g jy ix) ∧
    (|gridSum witBelief.nx witBelief.ny (obsUpdate (0 : ℚ) 0 witBelief 0 0 0).g - 1| ≤ 1 / 10 ^ 9 ∨
      (obsUpdate (0 : ℚ) 0 witBelief 0 0 0).g = uniformGrid witBelief.nx witBelief.ny) ∧
    (gridSum witBelief.nx witBelief.ny (attenuate 0 witBelief 0 0 0) ≤ 1 / 10 ^ 12 →
      (obsUpdate (0 : ℚ) 0 witBelief 0 0 0).g = uniformGrid witBelief.nx witBelief.ny)) :=
  ⟨⟨le_refl 1, le_refl 1, fun _ _ => zero_le_one, by simp [gridSum, witBelief],
      le_refl 0, zero_le_one, le_refl 0, zero_lt_one⟩,
    C4_observation_update_mass witBelief 0 0 0 0 0 (le_refl 1) (le_refl 1)
      (fun _ _ => zero_le_one) (by simp [gridSum, witBelief])
      (le_refl 0) zero_le_one (le_refl 0) zero_lt_one⟩

/-! ### Composition of observation updates (claim C7) -/

/-- Renormalisation of a grid by its total mass, with the same underflow
reset as the renormalisation steps inside `_observation_update`. -/
def renormGrid (nx ny : ℕ) (g : ℕ → ℕ → K) : ℕ → ℕ → K :=
  if gridSum nx ny g ≤ 1 / 10 ^ 12 then uniformGrid nx ny
  else fun jy ix => g jy ix * (1 / gridSum nx ny g)

theorem inDisc_set_g (b : Belief K) (h : ℕ → ℕ → K) (cx cy r : K) (jy ix : ℕ) :
    inDisc { b with g := h } cx cy r jy ix ↔ inDisc b cx cy r jy ix := Iff.rfl

theorem obsUpdate_zero_diffusion (detect : K) (b : Belief K) (cx cy r : K) :
    obsUpdate detect 0 b cx cy r = { b with g := normStage detect b cx cy r } := by
  unfold obsUpdate
  rw [if_neg (lt_irrefl 0)]

theorem normStage_scale {detect : K} {b : Belief K} {cx cy r : K}
    (h : ¬ gridSum b.nx b.ny (attenuate detect b cx cy r) ≤ 1 / 10 ^ 12) :
    normStage detect b cx cy r = fun jy ix =>
      attenuate detect b cx cy r jy ix
        * (1 / gridSum b.nx b.ny (attenuate detect b cx cy r)) := by
  unfold normStage
  rw [if_neg h]

theorem attenuate_set_g (detect : K) (b : Belief K) (h : ℕ → ℕ → K) (cx cy r : K) :
    attenuate detect { b with g := h } cx cy r
      = fun jy ix => if inDisc b cx cy r jy ix then h jy ix * (1 - detect) else h jy ix := rfl

theorem attenuate_scale (detect : K) (b : Belief K) (h : ℕ → ℕ → K) (c : K) (cx cy r : K) :
    attenuate detect { b with g := fun jy ix => h jy ix * c } cx cy r
      = fun jy ix => attenuate detect { b with g := h } cx cy r jy ix * c := by
  funext jy ix
  rw [attenuate_set_g, attenuate_set_g]
  dsimp only
  split_ifs with hd
  · ring
  · rfl

theorem attenuate_twice (detect : K) (b : Belief K) (cx cy r : K) :
    attenuate detect { b with g := attenuate detect b cx cy r } cx cy r
      = fun jy ix => attenuate (1 - (1 - detect) ^ 2) b cx cy r jy ix := by
  funext jy ix
  rw [attenuate_set_g]
  unfold attenuate
  dsimp only
  split_ifs with hd
  · ring
  · rfl


theorem attenuate_scaled_twice (detect : K) (b : Belief K) (cx cy r c : K) :
    attenuate detect { b with g := fun jy ix => attenuate detect b cx cy r jy ix * c } cx cy r
      = fun jy ix => attenuate (1 - (1 - detect) ^ 2) b cx cy r jy ix * c := by
  rw [attenuate_scale detect b (attenuate detect b cx cy r) c cx cy r]
  funext jy ix
  dsimp only
  rw [attenuate_twice detect b cx cy r]

/-- Claim C7 (amended): two observation updates at the same position with
zero diffusion and detect strength `s` equal one update with strength
`1 - (1 - s)^2` followed by renormalisation — exactly, provided the mass of
the doubly-attenuated grid stays above the `1e-12` underflow threshold (so
that no uniform reset fires in any of the three renormalisations). -/
theorem C7_double_update_amended (b : Belief ℚ) (cx cy r s : ℚ)
    (hg : ∀ jy ix, 0 ≤ b.g jy ix) (hsum : gridSum b.nx b.ny b.g = 1)
    (hs0 : 0 ≤ s) (hs1 : s ≤ 1)
    (hmass : 1 / 10 ^ 12 < gridSum b.nx b.ny (attenuate (1 - (1 - s) ^ 2) b cx cy r)) :
    (obsUpdate s 0 (obsUpdate s 0 b cx cy r) cx cy r).g
      = renormGrid b.nx b.ny (obsUpdate (1 - (1 - s) ^ 2) 0 b cx cy r).g := by
  have ha2le : ∀ jy ix, attenuate (1 - (1 - s) ^ 2) b cx cy r jy ix
      ≤ attenuate s b cx cy r jy ix := by
    intro jy ix
    unfold attenuate
    split_ifs with h
    · nlinarith [mul_nonneg (mul_nonneg (hg jy ix) (by linarith : (0:ℚ) ≤ 1 - s)) hs0]
    · exact le_refl _
  have hS21 : gridSum b.nx b.ny (attenuate (1 - (1 - s) ^ 2) b cx cy r)
      ≤ gridSum b.nx b.ny (attenuate s b cx cy r) := gridSum_mono ha2le
  have hS1eps : 1 / 10 ^ 12 < gridSum b.nx b.ny (attenuate s b cx cy r) :=
    lt_of_lt_of_le hmass hS21
  have hS1pos : 0 < gridSum b.nx b.ny (attenuate s b cx cy r) :=
    lt_trans (by positivity) hS1eps
  have hS2pos : (0:ℚ) < gridSum b.nx b.ny (attenuate (1 - (1 - s) ^ 2) b cx cy r) :=
    lt_trans (by positivity) hmass
  have hS1le1 : gridSum b.nx b.ny (attenuate s b cx cy r) ≤ 1 := by
    rw [← hsum]
    apply gridSum_mono
    intro jy ix
    unfold attenuate
    split_ifs with h
    · nlinarith [mul_nonneg (hg jy ix) hs0]
    · exact le_refl _
  have hb1 : obsUpdate s 0 b cx cy r = { b with g := fun jy ix => attenuate s b cx cy r jy ix * (1 / gridSum b.nx b.ny (attenuate s b cx cy r)) } := by
    rw [obsUpdate_zero_diffusion, normStage_scale (not_le.2 hS1eps)]
  have hkey := attenuate_scaled_twice s b cx cy r (1 / gridSum b.nx b.ny (attenuate s b cx cy r))
  have hSsecond : gridSum b.nx b.ny (attenuate s { b with g := fun jy ix => attenuate s b cx cy r jy ix * (1 / gridSum b.nx b.ny (attenuate s b cx cy r)) } cx cy r) = gridSum b.nx b.ny (attenuate (1 - (1 - s) ^ 2) b cx cy r) * (1 / gridSum b.nx b.ny (attenuate s b cx cy r)) := by
    rw [hkey, gridSum_mul_right]
  have h2eps : ¬ gridSum b.nx b.ny (attenuate s { b with g := fun jy ix => attenuate s b cx cy r jy ix * (1 / gridSum b.nx b.ny (attenuate s b cx cy r)) } cx cy r) ≤ 1 / 10 ^ 12 := by
    rw [hSsecond]
    apply not_le.2
    have h1div : (1:ℚ) ≤ 1 / gridSum b.nx b.ny (attenuate s b cx cy r) := by
      rw [le_div_iff₀ hS1pos]; linarith
    calc (1:ℚ) / 10 ^ 12
        < gridSum b.nx b.ny (attenuate (1 - (1 - s) ^ 2) b cx cy r) := hmass
      _ = gridSum b.nx b.ny (attenuate (1 - (1 - s) ^ 2) b cx cy r) * 1 := (mul_one _).symm
      _ ≤ gridSum b.nx b.ny (attenuate (1 - (1 - s) ^ 2) b cx cy r) * (1 / gridSum b.nx b.ny (attenuate s b cx cy r)) := mul_le_mul_of_nonneg_left h1div hS2pos.le
  rw [hb1, obsUpdate_zero_diffusion, obsUpdate_zero_diffusion]
  show normStage s { b with g := fun jy ix => attenuate s b cx cy r jy ix * (1 / gridSum b.nx b.ny (attenuate s b cx cy r)) } cx cy r = renormGrid b.nx b.ny (normStage (1 - (1 - s) ^ 2) b cx cy r)
  rw [normStage_scale h2eps, normStage_scale (not_le.2 hmass)]
  have hrg : gridSum b.nx b.ny (fun jy ix => attenuate (1 - (1 - s) ^ 2) b cx cy r jy ix * (1 / gridSum b.nx b.ny (attenuate (1 - (1 - s) ^ 2) b cx cy r))) = 1 := by
    rw [gridSum_mul_right, mul_one_div, div_self hS2pos.ne']
  unfold renormGrid
  rw [hrg, if_neg (by norm_num : ¬ (1:ℚ) ≤ 1 / 10 ^ 12)]
  funext jy ix
  dsimp only
  rw [hkey, gridSum_mul_right]
  dsimp only
  have h1 : gridSum b.nx b.ny (attenuate s b cx cy r) ≠ 0 := hS1pos.ne'
  have h2 : gridSum b.nx b.ny (attenuate (1 - (1 - s) ^ 2) b cx cy r) ≠ 0 := hS2pos.ne'
  field_simp

/-- A two-cell belief grid (one row, masses 3/4 and 1/4) on which the
round-trip law of claim C7 fails: with `s = 1 - 1e-11` both cells lie in the
sensor disc, so the double update keeps the grid at (3/4, 1/4) (each single
attenuation leaves mass `1e-11 > 1e-12`), while the combined strength
`1 - (1-s)^2` drops the mass to `1e-22 ≤ 1e-12` and resets to uniform. -/
def cexBelief : Belief ℚ :=
  ⟨2, 1, 0, 0, 1, fun jy ix => if jy = 0 ∧ ix = 0 then 3/4 else if jy = 0 ∧ ix = 1 then 1/4 else 0⟩

/-- Detect strength used in the C7 counterexample. -/
def cexS : ℚ := 1 - 1 / 10 ^ 11

/-- Claim C7 as stated is false: at the concrete grid `cexBelief`, position
(1/2, 1/2), radius 2 and detect strength `cexS`, the twice-updated grid and
the once-updated-then-renormalised grid differ by 1/4 at cell (0, 0), far
beyond numerical tolerance. -/
theorem C7_double_update_counterexample :
    ¬ (∀ jy ix, jy < cexBelief.ny → ix < cexBelief.nx →
        |(obsUpdate cexS 0 (obsUpdate cexS 0 cexBelief (1/2) (1/2) 2) (1/2) (1/2) 2).g jy ix
          - renormGrid cexBelief.nx cexBelief.ny
              ((obsUpdate (1 - (1 - cexS) ^ 2) 0 cexBelief (1/2) (1/2) 2).g) jy ix|
          ≤ 1 / 10 ^ 9) := by
  intro h
  have h00 := h 0 0 (by norm_num [cexBelief]) (by norm_num [cexBelief])
  rw [show ((obsUpdate cexS 0 (obsUpdate cexS 0 cexBelief (1/2) (1/2) 2) (1/2) (1/2) 2).g 0 0 : ℚ)
      = 3/4 by
    norm_num [obsUpdate, normStage, attenuate, gridSum, uniformGrid, inDisc, cellCx,
      cellCy, cexBelief, cexS, Finset.sum_range_succ, Finset.sum_range_zero]] at h00
  rw [show (renormGrid cexBelief.nx cexBelief.ny
        ((obsUpdate (1 - (1 - cexS) ^ 2) 0 cexBelief (1/2) (1/2) 2).g) 0 0 : ℚ) = 1/2 by
    norm_num [obsUpdate, normStage, attenuate, gridSum, renormGrid, uniformGrid, inDisc, cellCx,
      cellCy, cexBelief, cexS, Finset.sum_range_succ, Finset.sum_range_zero]] at h00
  rw [abs_le] at h00
  norm_num at h00

theorem C7_double_update_amended_witness :
    ((∀ jy ix, 0 ≤ witBelief.g jy ix) ∧ gridSum witBelief.nx witBelief.ny witBelief.g = 1 ∧
      (0 : ℚ) ≤ 0 ∧ (0 : ℚ) ≤ 1 ∧
      1 / 10 ^ 12 < gridSum witBelief.nx witBelief.ny
        (attenuate (1 - (1 - 0) ^ 2) witBelief 0 0 0)) ∧
    (obsUpdate (0 : ℚ) 0 (obsUpdate (0 : ℚ) 0 witBelief 0 0 0) 0 0 0).g
      = renormGrid witBelief.nx witBelief.ny (obsUpdate (1 - ((1 : ℚ) - 0) ^ 2) 0 witBelief 0 0 0).g :=
  ⟨⟨fun _ _ => zero_le_one, by simp [gridSum, witBelief], le_refl 0, zero_le_one, by
      norm_num [gridSum, attenuate, witBelief, inDisc, cellCx, cellCy,
        Finset.sum_range_succ, Finset.sum_range_zero]⟩,
    C7_double_update_amended witBelief 0 0 0 0 (fun _ _ => zero_le_one)
      (by simp [gridSum, witBelief]) (le_refl 0) zero_le_one
      (by norm_num [gridSum, attenuate, witBelief, inDisc, cellCx, cellCy,
        Finset.sum_range_succ, Finset.sum_range_zero])⟩

/-! ### Deterministic PRNG discipline (claim C6) -/

/-- Python `range(a, b + 1)` as a list of integers (empty when `b < a`),
used for the inclusive grid-index scans of the source. -/
def intRange (a b : ℤ) : List ℤ := (List.range (b + 1 - a).toNat).map (fun k => a + (k : ℤ))

/-- Belief mass inside a disc, from `Drone._belief_sum_in_disc`: scan the
rows/columns whose index range covers the disc's bounding box and add the
mass of every cell whose center lies in the disc. -/
def beliefSumInDisc [FloorRing K] (b : Belief K) (cx cy radius : K) : K :=
  let x0 : ℤ := max 0 ⌊(cx - radius - b.left) / b.cell⌋
  let x1 : ℤ := min ((b.nx : ℤ) - 1) ⌊(cx + radius - b.left) / b.cell⌋
  let y0 : ℤ := max 0 ⌊(cy - radius - b.top) / b.cell⌋
  let y1 : ℤ := min ((b.ny : ℤ) - 1) ⌊(cy + radius - b.top) / b.cell⌋
  ((intRange y0 y1).map (fun jy =>
    ((intRange x0 x1).map (fun ix =>
      if inDisc b cx cy radius jy.toNat ix.toNat then b.g jy.toNat ix.toNat else 0)).sum)).sum

/-- The inset search rectangle of a sector (`safe_rects[i]` in the source). -/
structure SafeRect (K : Type) where
  left : K
  top : K
  width : K
  height : K

/-- Right edge of a safe rectangle. -/
def SafeRect.right (s : SafeRect K) : K := s.left + s.width

/-- Bottom edge of a safe rectangle. -/
def SafeRect.bottom (s : SafeRect K) : K := s.top + s.height

/-- Candidate loop of `Drone._replan_target`.  Candidate `k` draws
`x = random.uniform(safe.left, safe.right)` and
`y = random.uniform(safe.top, safe.bottom)` from the process-global `random`
module, modelled as `a + (b - a) * u n` on the ambient stream `u`; it is
scored `gain - cost_per_px * dist` and the strictly best candidate is kept. -/
noncomputable def replanFold (safe : SafeRect ℝ) (b : Belief ℝ) (fovR cost px py : ℝ) (u : ℕ → ℝ) :
    List ℕ → ℝ × Option (ℝ × ℝ) → ℝ × Option (ℝ × ℝ)
  | [], acc => acc
  | k :: rest, (bs, bp) =>
    let x := safe.left + (safe.right - safe.left) * u (2 * k)
    let y := safe.top + (safe.bottom - safe.top) * u (2 * k + 1)
    let gain := beliefSumInDisc b x y fovR
    let dist := Real.sqrt ((x - px) ^ 2 + (y - py) ^ 2)
    let score := gain - cost * dist
    replanFold safe b fovR cost px py u rest
      (if score > bs then (score, some (x, y)) else (bs, bp))

/-- Target selection of `Drone._replan_target`: a degenerate sector targets
the center; otherwise the best of `cand` Monte-Carlo candidates drawn from
the ambient global-random stream `u`, falling back to the center. -/
noncomputable def replanTarget (safe : SafeRect ℝ) (b : Belief ℝ) (fovR cost px py : ℝ)
    (cand : ℕ) (u : ℕ → ℝ) : ℝ × ℝ :=
  if safe.width ≤ 1 ∨ safe.height ≤ 1 then
    (safe.left + safe.width / 2, safe.top + safe.height / 2)
  else
    match (replanFold safe b fovR cost px py u (List.range cand) (-(10 ^ 30), none)).2 with
    | some pt => pt
    | none => (safe.left + safe.width / 2, safe.top + safe.height / 2)

/-- Work period drawn on leaving RECHARGE, from the RECHARGE branch of
`Drone.move`: `wp = max(2.0, work_T * (1.0 + jitter_frac * (2.0 * random.random() - 1.0)))`,
where `random.random()` is the process-global `random` module's next draw
`u`, which the application never seeds. -/
noncomputable def rechargeExitPeriod (workT jitter u : ℝ) : ℝ :=
  max 2 (workT * (1 + jitter * (2 * u - 1)))

theorem beliefSumInDisc_zero [FloorRing K] (b : Belief K) (cx cy radius : K)
    (h : ∀ jy ix, b.g jy ix = 0) : beliefSumInDisc b cx cy radius = 0 := by
  unfold beliefSumInDisc
  apply List.sum_eq_zero
  intro x hx
  simp only [List.mem_map] at hx
  obtain ⟨jy, _, rfl⟩ := hx
  apply List.sum_eq_zero
  intro y hy
  simp only [List.mem_map] at hy
  obtain ⟨ix, _, rfl⟩ := hy
  simp [h]

/-- A nondegenerate safe rectangle used to exhibit the planner's dependence
on the ambient global-random stream. -/
def cexSafe : SafeRect ℝ := ⟨0, 0, 10, 10⟩

/-- An all-zero belief grid: every Monte-Carlo candidate then scores 0, so
the first candidate (a direct function of the global-random draws) wins. -/
def cexZeroBelief : Belief ℝ := ⟨1, 1, 0, 0, 1, fun _ _ => 0⟩

theorem replanTarget_cex (u : ℕ → ℝ) :
    replanTarget cexSafe cexZeroBelief 1 0 0 0 1 u = (10 * u 0, 10 * u 1) := by
  unfold replanTarget
  rw [if_neg (by norm_num [cexSafe])]
  rw [show List.range 1 = [0] from rfl]
  simp only [replanFold]
  rw [beliefSumInDisc_zero cexZeroBelief _ _ _ (fun _ _ => rfl)]
  simp only [zero_mul, zero_sub, sub_zero]
  rw [if_pos (by norm_num)]
  norm_num [cexSafe, SafeRect.right, SafeRect.bottom]

/-- Claim C6 as stated is false: the work period recomputed on leaving
RECHARGE is a function of the next draw of the process-global `random`
module (`random.random()` in the RECHARGE branch of `Drone.move`), which is
never seeded from the configuration; two runs with identical configuration
whose ambient global stream differs (next draw 1/2 versus 1) produce
different battery work periods, hence different trajectories. -/
theorem C6_rng_determinism_counterexample :
    rechargeExitPeriod 25 (1/4) (1/2) ≠ rechargeExitPeriod 25 (1/4) 1 := by
  unfold rechargeExitPeriod
  rw [show (25 : ℝ) * (1 + 1/4 * (2 * (1/2) - 1)) = 25 by ring,
    show (25 : ℝ) * (1 + 1/4 * (2 * 1 - 1)) = 125/4 by ring,
    max_eq_right (by norm_num : (2:ℝ) ≤ 25), max_eq_right (by norm_num : (2:ℝ) ≤ 125/4)]
  norm_num

/-- Claim C6 (amended): the fire engine's draws do come from its own PRNG
seeded from the configuration, but the per-sensor planner
(`random.uniform` in `_replan_target`) and the recharge-exit battery jitter
(`random.random()` in `Drone.move`) draw from the process-global `random`
module, which the configuration does not seed, and the fleet battery PRNG
is seeded with the constant 1337 rather than from the configuration; hence
the trajectory is a function of the configuration together with the global
module's stream, and for every nondegenerate jitter configuration two
global streams exist that drive the same configuration to different
trajectories, as they already give different recharge-exit work periods and
different Monte-Carlo targets. -/
theorem C6_rng_determinism_amended :
    (∀ workT jitter : ℝ, 2 ≤ workT → 0 < jitter → jitter ≤ 1 →
      ∃ u v : ℝ, 0 ≤ u ∧ u ≤ 1 ∧ 0 ≤ v ∧ v ≤ 1 ∧
        rechargeExitPeriod workT jitter u ≠ rechargeExitPeriod workT jitter v) ∧
    (∃ u v : ℕ → ℝ,
      replanTarget cexSafe cexZeroBelief 1 0 0 0 1 u
        ≠ replanTarget cexSafe cexZeroBelief 1 0 0 0 1 v) := by
  constructor
  · intro workT jitter hw hj0 hj1
    refine ⟨1/2, 1, by norm_num, by norm_num, by norm_num, le_refl 1, ?_⟩
    have h1 : rechargeExitPeriod workT jitter (1/2) = workT := by
      unfold rechargeExitPeriod
      rw [show workT * (1 + jitter * (2 * (1/2) - 1)) = workT by ring]
      exact max_eq_right hw
    have h2 : rechargeExitPeriod workT jitter 1 = workT * (1 + jitter) := by
      unfold rechargeExitPeriod
      rw [show workT * (1 + jitter * (2 * 1 - 1)) = workT * (1 + jitter) by ring]
      exact max_eq_right (by nlinarith)
    rw [h1, h2]
    nlinarith
  · refine ⟨fun _ => 0, fun _ => 1/2, ?_⟩
    rw [replanTarget_cex, replanTarget_cex]
    intro h
    rw [Prod.mk.injEq] at h
    norm_num at h

theorem C6_rng_determinism_amended_witness :
    ∃ u v : ℝ, 0 ≤ u ∧ u ≤ 1 ∧ 0 ≤ v ∧ v ≤ 1 ∧
      rechargeExitPeriod 25 (1/4) u ≠ rechargeExitPeriod 25 (1/4) v :=
  C6_rng_determinism_amended.1 25 (1/4) (by norm_num) (by norm_num) (by norm_num)

/-! ### Fire grid data model, from `fire.py` -/

/-- Cell states of the fire cellular automaton (`Fire.UNBURNED` … `Fire.BARRIER`). -/
inductive Cell
  | UNBURNED
  | BURNING
  | BURNED
  | BARRIER
deriving DecidableEq

/-- An incident record, with the fields of the dicts built by
`Fire.register_incident`; `Option` fields model entries that start as
`None`. -/
structure Incident (K : Type) where
  id : ℕ
  cx : K
  cy : K
  monitor_r : K
  delay : K
  zone_live : Bool
  zone_r : K
  active : Bool
  ignited_t : K
  detected_t : K
  suppressed_t : Option K
  extinguished_t : Option K
  detect_area : K
  final_area : Option K
  announced_suppression : Bool
  announced_extinguished : Bool
deriving DecidableEq

/-- Static configuration of the fire engine, as read in `Fire.__init__`;
`merge_r2` is the squared merge radius (the source stores the square). -/
structure FireParams (K : Type) where
  GW : ℕ
  GH : ℕ
  cell : K
  ros_scale : K
  R0 : K
  k_ignite : K
  wind_speed : K
  wind_dir_deg : K
  c_w : K
  b_w : K
  slope_deg : K
  slope_dir_deg : K
  c_s : K
  b_s : K
  moisture_live : K
  moisture_ext : K
  fuel_mean : K
  fuel_var : K
  burn_duration : K
  spot_chance : K
  spot_max_cells : ℕ
  quench : K
  merge_r2 : K
  monitor_r : K
  zone_r0 : K
  delay_s : K
  grow_v : K
  recover_T : K
  px_to_m : K

/-- Mutable state of the fire engine.  `t_ignited` uses `none` for
`math.inf` (never ignited); `kF` and `kI` are the cursors into the engine's
own float and integer pseudo-random draw streams. -/
structure FireState (K : Type) where
  state : ℕ → Cell
  burn_t : ℕ → K
  t_ignited : ℕ → Option K
  fuel : ℕ → K
  moist : ℕ → K
  tag : ℕ → ℕ
  sim_t : K
  active : List ℕ
  regen_t : ℕ → K
  regen_accum : K
  ever_burned : ℕ → Bool
  incidents : List (Incident K)
  next_incident_id : ℕ
  det_times : List K
  detect_areas : List K
  final_areas : List K
  dispatch_count : ℕ
  extinguished_count : ℕ
  user_ignitions : ℕ
  undetected_count : ℕ
  episode_has_incident : Bool
  kF : ℕ
  kI : ℕ

/-- Flat cell index `gy * GW + gx` (`Fire._idx`). -/
def natIdx (p : FireParams K) (gx gy : ℕ) : ℕ := gy * p.GW + gx

/-- Center x-coordinate of grid column `gx` (`Fire._center_px`). -/
def fireCx (p : FireParams K) (gx : ℕ) : K := (gx : K) * p.cell + p.cell / 2

/-- Center y-coordinate of grid row `gy` (`Fire._center_px`). -/
def fireCy (p : FireParams K) (gy : ℕ) : K := (gy : K) * p.cell + p.cell / 2

/-- Disc membership of the cell center `(gx, gy)`, the test
`dx * dx + dy2 <= r2` shared by every disc scan of `fire.py`. -/
def inFireDisc (p : FireParams K) (x y r : K) (gx gy : ℕ) : Prop :=
  (fireCx p gx - x) * (fireCx p gx - x) + (fireCy p gy - y) * (fireCy p gy - y) ≤ r * r

instance (p : FireParams K) (x y r : K) (gx gy : ℕ) : Decidable (inFireDisc p x y r gx gy) := by
  unfold inFireDisc; infer_instance

/-- The in-grid cells of the bounding box of a disc, row-major — the index
ranges `gx0..gx1` × `gy0..gy1` that every disc scan of `fire.py` computes
with clamped floor divisions. -/
def discCells [FloorRing K] (p : FireParams K) (x y r : K) : List (ℕ × ℕ) :=
  let gx0 : ℤ := max 0 ⌊(x - r) / p.cell⌋
  let gx1 : ℤ := min ((p.GW : ℤ) - 1) ⌊(x + r) / p.cell⌋
  let gy0 : ℤ := max 0 ⌊(y - r) / p.cell⌋
  let gy1 : ℤ := min ((p.GH : ℤ) - 1) ⌊(y + r) / p.cell⌋
  (intRange gy0 gy1).flatMap (fun gy => (intRange gx0 gx1).map (fun gx => (gx.toNat, gy.toNat)))

/-- Detection helper `Fire.burning_fraction_in_disc`: the fraction of
in-disc cells that are BURNING, and the centers of those hotspots. -/
def burningFracInDisc [FloorRing K] (p : FireParams K) (st : FireState K) (x y r : K) :
    K × List (K × K) :=
  let scanned := (discCells p x y r).filter (fun gp => decide (inFireDisc p x y r gp.1 gp.2))
  let hot := scanned.filter (fun gp => decide (st.state (natIdx p gp.1 gp.2) = Cell.BURNING))
  let frac : K := if 0 < scanned.length then (hot.length : K) / (scanned.length : K) else 0
  (frac, hot.map (fun gp => (fireCx p gp.1, fireCy p gp.2)))

/-- Simulated cell area in square meters (`Fire.cell_area_m2`). -/
def cellAreaM2 (p : FireParams K) : K := (p.cell * p.px_to_m) * (p.cell * p.px_to_m)

/-- The burning and burned cell counts of `Fire.footprint_in_disc`. -/
def footprintCounts [FloorRing K] (p : FireParams K) (st : FireState K) (x y r : K) : ℕ × ℕ :=
  let scanned := (discCells p x y r).filter (fun gp => decide (inFireDisc p x y r gp.1 gp.2))
  (scanned.countP (fun gp => decide (st.state (natIdx p gp.1 gp.2) = Cell.BURNING)),
   scanned.countP (fun gp => decide (st.state (natIdx p gp.1 gp.2) = Cell.BURNED)))

/-- The `area_m2_total` entry of `Fire.footprint_in_disc`:
`(burning + burned) * cell_area_m2`. -/
def footprintTotalM2 [FloorRing K] (p : FireParams K) (st : FireState K) (x y r : K) : K :=
  (((footprintCounts p st x y r).1 + (footprintCounts p st x y r).2 : ℕ) : K) * cellAreaM2 p

/-- Minimum of two optional times where `none` stands for `math.inf`. -/
def minOpt : Option K → Option K → Option K
  | none, b => b
  | some a, none => some a
  | some a, some b => some (min a b)

/-- Earliest absolute ignition time among BURNING cells near a point
(`Fire._estimate_ignited_time_near`), defaulting to `sim_t`. -/
def estimateIgnitedNear [FloorRing K] (p : FireParams K) (st : FireState K) (cx cy r : K) : K :=
  let scanned := (discCells p cx cy r).filter (fun gp => decide (inFireDisc p cx cy r gp.1 gp.2))
  let earliest := scanned.foldl (fun acc gp =>
    if st.state (natIdx p gp.1 gp.2) = Cell.BURNING
    then minOpt acc (st.t_ignited (natIdx p gp.1 gp.2)) else acc) none
  earliest.getD st.sim_t

/-- Incident registration (`Fire.register_incident`): mark the episode,
merge into the first active incident within the merge radius, otherwise
create a fresh record and append the detection metrics. -/
def registerIncident [FloorRing K] (p : FireParams K) (st : FireState K) (cx cy : K) :
    (ℕ × Bool) × FireState K :=
  let st1 := { st with episode_has_incident := true }
  match st1.incidents.find? (fun inc => inc.active && decide
      ((cx - inc.cx) * (cx - inc.cx) + (cy - inc.cy) * (cy - inc.cy) ≤ p.merge_r2)) with
  | some inc => ((inc.id, false), st1)
  | none =>
    let incId := st1.next_incident_id
    let ignT := estimateIgnitedNear p st1 cx cy p.monitor_r
    let detT := st1.sim_t
    let detS := max 0 (detT - ignT)
    let area := footprintTotalM2 p st1 cx cy p.monitor_r
    ((incId, true),
      { st1 with
          next_incident_id := incId + 1,
          det_times := st1.det_times ++ [detS],
          detect_areas := st1.detect_areas ++ [area],
          incidents := st1.incidents ++
            [⟨incId, cx, cy, p.monitor_r, p.delay_s, false, 0, true, ignT, detT,
              none, none, area, none, false, false⟩] })

/-- Tag-footprint area of an incident (`Fire._incident_area_by_tag_m2`):
cells tagged with the id that are BURNING or BURNED, times the cell area. -/
def incidentAreaByTag (p : FireParams K) (st : FireState K) (incId : ℕ) : K :=
  (((List.range (p.GW * p.GH)).countP (fun idx => decide
      (st.tag idx = incId ∧ (st.state idx = Cell.BURNING ∨ st.state idx = Cell.BURNED)))) : K)
    * cellAreaM2 p

/-- The 8-neighbourhood index offsets, in the order of `self.neigh`. -/
def neighOffsets : List (ℤ × ℤ) :=
  [(-1, 0), (1, 0), (0, -1), (0, 1), (-1, -1), (1, -1), (1, 1), (-1, 1)]

/-- In-grid test `0 <= gx < GW and 0 <= gy < GH` on signed coordinates. -/
def inGrid (p : FireParams K) (ngx ngy : ℤ) : Prop :=
  0 ≤ ngx ∧ ngx < (p.GW : ℤ) ∧ 0 ≤ ngy ∧ ngy < (p.GH : ℤ)

instance (p : FireParams K) (ngx ngy : ℤ) : Decidable (inGrid p ngx ngy) := by
  unfold inGrid; infer_instance

/-- Flat index of in-grid signed coordinates. -/
def toIdx (p : FireParams K) (ngx ngy : ℤ) : ℕ := (ngy * (p.GW : ℤ) + ngx).toNat

omit [LinearOrderedField K] in
theorem toIdx_lt (p : FireParams K) {ngx ngy : ℤ} (h : inGrid p ngx ngy) :
    toIdx p ngx ngy < p.GW * p.GH := by
  obtain ⟨h1, h2, h3, h4⟩ := h
  unfold toIdx
  have hy : ngy * (p.GW : ℤ) ≤ ((p.GH : ℤ) - 1) * (p.GW : ℤ) :=
    mul_le_mul_of_nonneg_right (by omega) (by positivity)
  have hlt : ngy * (p.GW : ℤ) + ngx < (p.GW : ℤ) * (p.GH : ℤ) := by nlinarith
  have hnn : 0 ≤ ngy * (p.GW : ℤ) + ngx := by positivity
  omega

/-- Neighbour pushes of the cluster BFS: in-grid, not yet visited, BURNING
and still untagged. -/
def clusterPushes (p : FireParams K) (stateF : ℕ → Cell) (tagF : ℕ → ℕ) (visited : Finset ℕ)
    (gx gy : ℕ) : List ℕ :=
  neighOffsets.filterMap (fun o =>
    if inGrid p ((gx : ℤ) + o.1) ((gy : ℤ) + o.2) then
      if toIdx p ((gx : ℤ) + o.1) ((gy : ℤ) + o.2) ∉ visited
          ∧ stateF (toIdx p ((gx : ℤ) + o.1) ((gy : ℤ) + o.2)) = Cell.BURNING
          ∧ tagF (toIdx p ((gx : ℤ) + o.1) ((gy : ℤ) + o.2)) = 0
      then some (toIdx p ((gx : ℤ) + o.1) ((gy : ℤ) + o.2)) else none
    else none)

omit [LinearOrderedField K] in
theorem clusterPushes_length_le (p : FireParams K) (stateF : ℕ → Cell) (tagF : ℕ → ℕ)
    (visited : Finset ℕ) (gx gy : ℕ) :
    (clusterPushes p stateF tagF visited gx gy).length ≤ 8 := by
  have h := List.length_filterMap_le (fun o : ℤ × ℤ =>
    if inGrid p ((gx : ℤ) + o.1) ((gy : ℤ) + o.2) then
      if toIdx p ((gx : ℤ) + o.1) ((gy : ℤ) + o.2) ∉ visited
          ∧ stateF (toIdx p ((gx : ℤ) + o.1) ((gy : ℤ) + o.2)) = Cell.BURNING
          ∧ tagF (toIdx p ((gx : ℤ) + o.1) ((gy : ℤ) + o.2)) = 0
      then some (toIdx p ((gx : ℤ) + o.1) ((gy : ℤ) + o.2)) else none
    else none) neighOffsets
  simpa [clusterPushes, neighOffsets] using h

omit [LinearOrderedField K] in
theorem clusterPushes_mem (p : FireParams K) (stateF : ℕ → Cell) (tagF : ℕ → ℕ)
    (visited : Finset ℕ) (gx gy : ℕ) :
    ∀ n ∈ clusterPushes p stateF tagF visited gx gy, n < p.GW * p.GH ∧ n ∉ visited := by
  intro n hn
  simp only [clusterPushes, List.mem_filterMap] at hn
  obtain ⟨o, _, ho⟩ := hn
  by_cases h1 : inGrid p ((gx : ℤ) + o.1) ((gy : ℤ) + o.2)
  · rw [if_pos h1] at ho
    by_cases h2 : toIdx p ((gx : ℤ) + o.1) ((gy : ℤ) + o.2) ∉ visited
        ∧ stateF (toIdx p ((gx : ℤ) + o.1) ((gy : ℤ) + o.2)) = Cell.BURNING
        ∧ tagF (toIdx p ((gx : ℤ) + o.1) ((gy : ℤ) + o.2)) = 0
    · rw [if_pos h2] at ho
      cases ho
      exact ⟨toIdx_lt p h1, h2.1⟩
    · rw [if_neg h2] at ho
      cases ho
  · rw [if_neg h1] at ho
    cases ho

theorem bfs_card_drop {N : ℕ} {idx : ℕ} {pushes rest : List ℕ} {visited : Finset ℕ}
    (hvis : idx ∉ visited)
    (hp : ∀ n ∈ pushes, n < N) :
    ((Finset.range N ∪ (pushes ++ rest).toFinset) \ insert idx visited).card
      < ((Finset.range N ∪ (idx :: rest).toFinset) \ visited).card := by
  have hmem : idx ∈ (Finset.range N ∪ (idx :: rest).toFinset) \ visited := by
    simp [Finset.mem_sdiff, hvis]
  have hsub : (Finset.range N ∪ (pushes ++ rest).toFinset) \ insert idx visited
      ⊆ ((Finset.range N ∪ (idx :: rest).toFinset) \ visited).erase idx := by
    intro a ha
    simp only [Finset.mem_sdiff, Finset.mem_union, List.mem_toFinset, List.mem_append,
      Finset.mem_insert, not_or, Finset.mem_erase, Finset.mem_range, List.mem_cons] at ha ⊢
    obtain ⟨hbase, hnotin⟩ := ha
    refine ⟨hnotin.1, ?_, hnotin.2⟩
    rcases hbase with h | h | h
    · exact Or.inl h
    · exact Or.inl (hp _ h)
    · exact Or.inr (Or.inr h)
  calc ((Finset.range N ∪ (pushes ++ rest).toFinset) \ insert idx visited).card
      ≤ (((Finset.range N ∪ (idx :: rest).toFinset) \ visited).erase idx).card :=
        Finset.card_le_card hsub
    _ < ((Finset.range N ∪ (idx :: rest).toFinset) \ visited).card :=
        Finset.card_erase_lt_of_mem hmem

theorem bfs_card_mono {N : ℕ} {idx : ℕ} {rest : List ℕ} {visited visited2 : Finset ℕ}
    (hv : visited ⊆ visited2) :
    ((Finset.range N ∪ rest.toFinset) \ visited2).card
      ≤ ((Finset.range N ∪ (idx :: rest).toFinset) \ visited).card := by
  apply Finset.card_le_card
  intro a ha
  simp only [Finset.mem_sdiff, Finset.mem_union, List.mem_toFinset, List.mem_cons] at ha ⊢
  exact ⟨ha.1.imp id Or.inr, fun hc => ha.2 (hv hc)⟩

/-- Depth-first labelling loop of `Fire._label_incident_cluster`: pop, skip
visited cells, mark visited, skip non-BURNING cells, assign the incident tag
to untagged cells, push eligible neighbours. -/
def clusterTag (p : FireParams K) (stateF : ℕ → Cell) (incId : ℕ) :
    List ℕ → Finset ℕ → (ℕ → ℕ) → (ℕ → ℕ)
  | [], _, tagF => tagF
  | idx :: rest, visited, tagF =>
    if hmem : idx ∈ visited then clusterTag p stateF incId rest visited tagF
    else if hburn : stateF idx ≠ Cell.BURNING then
      clusterTag p stateF incId rest (insert idx visited) tagF
    else
      clusterTag p stateF incId
        (clusterPushes p stateF (if tagF idx = 0 then Function.update tagF idx incId else tagF)
            (insert idx visited) (idx % p.GW) (idx / p.GW) ++ rest)
        (insert idx visited)
        (if tagF idx = 0 then Function.update tagF idx incId else tagF)
termination_by stack visited _ =>
  stack.length + 9 * ((Finset.range (p.GW * p.GH) ∪ stack.toFinset) \ visited).card
decreasing_by
  · have hc := @bfs_card_mono (p.GW * p.GH) idx rest visited visited
      (Finset.Subset.refl visited)
    simp only [List.length_cons]
    omega
  · have hc := @bfs_card_mono (p.GW * p.GH) idx rest visited (insert idx visited)
      (Finset.subset_insert idx visited)
    simp only [List.length_cons]
    omega
  · have hlen := clusterPushes_length_le p stateF
      (if tagF idx = 0 then Function.update tagF idx incId else tagF)
      (insert idx visited) (idx % p.GW) (idx / p.GW)
    have hcard := @bfs_card_drop (p.GW * p.GH) idx
      (clusterPushes p stateF
        (if tagF idx = 0 then Function.update tagF idx incId else tagF)
        (insert idx visited) (idx % p.GW) (idx / p.GW)) rest visited hmem
      (fun n hn => (clusterPushes_mem p stateF
        (if tagF idx = 0 then Function.update tagF idx incId else tagF)
        (insert idx visited) (idx % p.GW) (idx / p.GW) n hn).1)
    simp only [List.length_append, List.length_cons, dite_eq_ite]
    omega

/-- Seed cells of the cluster labelling: active-frontier cells whose center
lies in the monitor disc. -/
def clusterSeeds (p : FireParams K) (st : FireState K) (cx0 cy0 r : K) : List ℕ :=
  st.active.filter (fun idx => decide (inFireDisc p cx0 cy0 r (idx % p.GW) (idx / p.GW)))

/-- Squared distance from a cell center to the incident center (the `d2`
key of the labelling fallback). -/
def d2ToCenter (p : FireParams K) (cx0 cy0 : K) (idx : ℕ) : K :=
  (fireCx p (idx % p.GW) - cx0) * (fireCx p (idx % p.GW) - cx0)
    + (fireCy p (idx / p.GW) - cy0) * (fireCy p (idx / p.GW) - cy0)

/-- First minimiser of `d2` over a list, seeded with `best` (Python's `min`
keeps the first minimum). -/
def argminD2 (p : FireParams K) (cx0 cy0 : K) : List ℕ → ℕ → ℕ
  | [], best => best
  | i :: rest, best =>
    argminD2 p cx0 cy0 rest (if d2ToCenter p cx0 cy0 i < d2ToCenter p cx0 cy0 best then i else best)

/-- The tag map after labelling one incident's cluster
(`Fire._label_incident_cluster`): seeds are the active cells in the monitor
disc, falling back to the nearest active cell; an empty frontier labels
nothing. -/
def clusterTagFor (p : FireParams K) (st : FireState K) (incId : ℕ) (cx0 cy0 r : K) : ℕ → ℕ :=
  match clusterSeeds p st cx0 cy0 r, st.active with
  | [], [] => st.tag
  | [], a :: rest => clusterTag p st.state incId [argminD2 p cx0 cy0 rest a] ∅ st.tag
  | seeds, _ => clusterTag p st.state incId seeds ∅ st.tag

/-- Per-incident step of `Fire._update_incidents`, threading the grid state
(for labelling writes and the dispatch counter) through the incident list. -/
def updateIncGo [FloorRing K] (p : FireParams K) (dt : K) :
    List (Incident K) → FireState K → List (Incident K) × FireState K
  | [], st => ([], st)
  | inc :: rest, st =>
    if inc.zone_live then
      let inc1 := { inc with zone_r := min inc.monitor_r (inc.zone_r + p.grow_v * dt) }
      let out := updateIncGo p dt rest st
      (inc1 :: out.1, out.2)
    else if (burningFracInDisc p st inc.cx inc.cy inc.monitor_r).1 ≤ 0 then
      let inc1 := { inc with active := false }
      let out := updateIncGo p dt rest st
      (inc1 :: out.1, out.2)
    else if inc.delay - dt ≤ 0 then
      let inc1 := { inc with delay := inc.delay - dt, zone_live := true, zone_r := min p.zone_r0 inc.monitor_r, suppressed_t := some st.sim_t }
      let st1 := { st with tag := clusterTagFor p st inc.id inc.cx inc.cy inc.monitor_r, dispatch_count := st.dispatch_count + 1 }
      let out := updateIncGo p dt rest st1
      (inc1 :: out.1, out.2)
    else
      let inc1 := { inc with delay := inc.delay - dt }
      let out := updateIncGo p dt rest st
      (inc1 :: out.1, out.2)

/-- The incident pass of `Fire.update` (`Fire._update_incidents`). -/
def updateIncidents [FloorRing K] (p : FireParams K) (st : FireState K) (dt : K) : FireState K :=
  let out := updateIncGo p dt st.incidents st
  { out.2 with incidents := out.1 }

/-- Loop body of `Fire.incident_is_active` over the incident list: the first
record with the queried id is examined and possibly rewritten; the result
also carries the final-area appends and the extinguished-counter increment. -/
def iiaGo [FloorRing K] (p : FireParams K) (st : FireState K) (incId : ℕ) :
    List (Incident K) → Bool × List (Incident K) × List K × ℕ
  | [] => (false, [], [], 0)
  | inc :: rest =>
    if inc.id ≠ incId then
      let out := iiaGo p st incId rest
      (out.1, inc :: out.2.1, out.2.2.1, out.2.2.2)
    else if inc.zone_live then
      if st.active.any (fun idx => decide (st.tag idx = incId ∧ st.state idx = Cell.BURNING)) then
        (true, { inc with active := true } :: rest, [], 0)
      else if inc.extinguished_t = none then
        (false, { inc with active := false, extinguished_t := some st.sim_t, final_area := some (incidentAreaByTag p st incId) } :: rest,
          [incidentAreaByTag p st incId], 1)
      else
        (false, inc :: rest, [], 0)
    else
      (decide (0 < (burningFracInDisc p st inc.cx inc.cy inc.monitor_r).1),
        ({ inc with active := decide (0 < (burningFracInDisc p st inc.cx inc.cy inc.monitor_r).1) } :: rest), [], 0)

/-- The mutating activity query `Fire.incident_is_active`: returns whether
the incident still has tagged burning cells and updates the incident
records, the final-area list and the extinguished counter. -/
def incidentIsActive [FloorRing K] (p : FireParams K) (st : FireState K) (incId : ℕ) :
    Bool × FireState K :=
  let out := iiaGo p st incId st.incidents
  (out.1, { st with incidents := out.2.1, final_areas := st.final_areas ++ out.2.2.1, extinguished_count := st.extinguished_count + out.2.2.2 })

/-- Cell ignition `Fire._ignite_cell`: silently ignores out-of-grid
coordinates; an UNBURNED cell with fuel becomes BURNING with `burn_t = 0`,
`t_ignited = sim_t`, and is appended to the active frontier. -/
def igniteCell (p : FireParams K) (st : FireState K) (gx gy : ℤ) : FireState K :=
  if inGrid p gx gy then
    if st.state (toIdx p gx gy) = Cell.UNBURNED ∧ 0 < st.fuel (toIdx p gx gy) then
      { st with state := Function.update st.state (toIdx p gx gy) Cell.BURNING, burn_t := Function.update st.burn_t (toIdx p gx gy) 0, t_ignited := Function.update st.t_ignited (toIdx p gx gy) (some st.sim_t), active := st.active ++ [toIdx p gx gy] }
    else st
  else st

/-- Per-cell body of the burned-area recovery sweep
(`Fire._recover_burned`): a BURNED cell accumulates `regen_t` and, past
`recover_T`, is reset to UNBURNED with re-jittered fuel and moisture (two
draws of the engine's own rng) and a cleared tag. -/
def recoverCellStep (p : FireParams K) (rngF : ℕ → K) (step : K) (st : FireState K) (idx : ℕ) :
    FireState K :=
  if st.state idx = Cell.BURNED then
    if p.recover_T ≤ st.regen_t idx + step then
      { st with fuel := Function.update st.fuel idx (max (1/10) (p.fuel_mean * (1 + (rngF st.kF * 2 - 1) * p.fuel_var))), moist := Function.update st.moist idx (max 0 (min 1 (p.moisture_live + (rngF (st.kF + 1) * 2 - 1) * (1/20)))), state := Function.update st.state idx Cell.UNBURNED, burn_t := Function.update st.burn_t idx 0, regen_t := Function.update st.regen_t idx 0, tag := Function.update st.tag idx 0, kF := st.kF + 2 }
    else { st with regen_t := Function.update st.regen_t idx (st.regen_t idx + step) }
  else st

/-- Amortised burned-area recovery (`Fire._recover_burned`): below a quarter
second of accumulated time nothing happens; otherwise the whole grid is
swept with the accumulated step. -/
def recoverBurned (p : FireParams K) (rngF : ℕ → K) (st : FireState K) (dt : K) : FireState K :=
  if p.recover_T ≤ 0 then st
  else if st.regen_accum + dt < 1/4 then { st with regen_accum := st.regen_accum + dt }
  else
    (List.range (p.GW * p.GH)).foldl
      (recoverCellStep p rngF (st.regen_accum + dt))
      { st with regen_accum := 0 }

/-- Modelled from the spec: the per-incident pass of
`snapshot_finalize_open_incidents()`, an operation the spec attributes to
the fire engine but whose implementation is not in the repository sources;
"closes any incident still lacking `final_area` by recording its current
tag-footprint (or monitor-disc footprint if no tags exist)", appending each
recorded area to the final-area list. -/
def snapGo [FloorRing K] (p : FireParams K) (st : FireState K) :
    List (Incident K) → List (Incident K) × List K
  | [] => ([], [])
  | inc :: rest =>
    let out := snapGo p st rest
    if inc.final_area = none then
      let area := if (List.range (p.GW * p.GH)).any (fun idx => decide (st.tag idx = inc.id))
        then incidentAreaByTag p st inc.id
        else footprintTotalM2 p st inc.cx inc.cy inc.monitor_r
      ({ inc with final_area := some area } :: out.1, area :: out.2)
    else (inc :: out.1, out.2)

/-- Modelled from the spec: `snapshot_finalize_open_incidents()` assigns a
final area to every incident still lacking one and appends those areas to
the final-area metric list. -/
def snapshotFinalize [FloorRing K] (p : FireParams K) (st : FireState K) : FireState K :=
  let out := snapGo p st st.incidents
  { st with incidents := out.1, final_areas := st.final_areas ++ out.2 }

theorem snapGo_sets [FloorRing K] (p : FireParams K) (st : FireState K) (incs : List (Incident K)) :
    ∀ inc ∈ (snapGo p st incs).1, inc.final_area ≠ none := by
  induction incs with
  | nil => intro inc h; cases h
  | cons a rest ih =>
    intro inc h
    simp only [snapGo] at h
    split_ifs at h with hnone hany
    · rcases List.mem_cons.1 h with rfl | hmem
      · simp
      · exact ih inc hmem
    · rcases List.mem_cons.1 h with rfl | hmem
      · simp
      · exact ih inc hmem
    · rcases List.mem_cons.1 h with rfl | hmem
      · exact hnone
      · exact ih inc hmem

theorem snapGo_already [FloorRing K] (p : FireParams K) (st : FireState K)
    (incs : List (Incident K)) (h : ∀ inc ∈ incs, inc.final_area ≠ none) :
    snapGo p st incs = (incs, []) := by
  induction incs with
  | nil => rfl
  | cons a rest ih =>
    simp only [snapGo]
    rw [ih (fun i hi => h i (List.mem_cons_of_mem _ hi))]
    rw [if_neg (h a (List.mem_cons_self a rest))]

/-- Claim C8 (spec-modelled): `snapshot_finalize_open_incidents()` assigns a
final area to every incident still lacking one, and the operation is
idempotent — a second application leaves the incident records and the
final-area list unchanged. -/
theorem C8_snapshot_finalize_idempotent (p : FireParams ℚ) (st : FireState ℚ) :
    (∀ inc ∈ (snapshotFinalize p st).incidents, inc.final_area ≠ none) ∧
    snapshotFinalize p (snapshotFinalize p st) = snapshotFinalize p st := by
  constructor
  · exact snapGo_sets p st st.incidents
  · have hgo : snapGo p (snapshotFinalize p st) (snapshotFinalize p st).incidents
        = ((snapshotFinalize p st).incidents, []) :=
      snapGo_already p (snapshotFinalize p st) (snapshotFinalize p st).incidents
        (snapGo_sets p st st.incidents)
    show ({ snapshotFinalize p st with
        incidents := (snapGo p (snapshotFinalize p st) (snapshotFinalize p st).incidents).1,
        final_areas := (snapshotFinalize p st).final_areas
          ++ (snapGo p (snapshotFinalize p st) (snapshotFinalize p st).incidents).2 } : FireState ℚ)
      = snapshotFinalize p st
    rw [hgo, List.append_nil]

/-! ### Construction (claim C9), from `Fire.__init__` and `Drone.__init__` -/

/-- The configuration values `Fire.__init__` reads (via `configs.settings`
and its reflective defaults); `px_to_meter` is optional as in the source. -/
structure FireConfig (K : Type) where
  screen_w : ℤ
  screen_h : ℤ
  cell_px : ℤ
  ros_scale : K
  R0 : K
  k_ignite : K
  wind_speed : K
  wind_dir_deg : K
  c_w : K
  b_w : K
  slope_deg : K
  slope_dir_deg : K
  c_s : K
  b_s : K
  moisture_live : K
  moisture_ext : K
  fuel_mean : K
  fuel_var : K
  burn_duration : K
  spot_chance : K
  spot_max_cells : ℕ
  quench : K
  merge_radius : K
  monitor_radius : K
  suppress_radius : K
  stop_delay : K
  grow_speed : K
  recover_T : K
  px_to_meter : Option K
  target_kmh : K
  speed : K

/-- Construction of the fire engine, from `Fire.__init__`: the only failure
path is the division by zero in `GW = screen_width // cell` when the cell
size is zero (an unhandled `ZeroDivisionError`, modelled as `none`); no
range or finiteness validation is performed on any other field. -/
def mkFire (cfg : FireConfig K) : Option (FireParams K) :=
  if cfg.cell_px = 0 then none
  else some
    { GW := (cfg.screen_w.fdiv cfg.cell_px).toNat,
      GH := (cfg.screen_h.fdiv cfg.cell_px).toNat,
      cell := (cfg.cell_px : K),
      ros_scale := cfg.ros_scale,
      R0 := cfg.R0,
      k_ignite := cfg.k_ignite,
      wind_speed := cfg.wind_speed,
      wind_dir_deg := cfg.wind_dir_deg,
      c_w := cfg.c_w,
      b_w := cfg.b_w,
      slope_deg := cfg.slope_deg,
      slope_dir_deg := cfg.slope_dir_deg,
      c_s := cfg.c_s,
      b_s := cfg.b_s,
      moisture_live := cfg.moisture_live,
      moisture_ext := cfg.moisture_ext,
      fuel_mean := cfg.fuel_mean,
      fuel_var := cfg.fuel_var,
      burn_duration := cfg.burn_duration,
      spot_chance := cfg.spot_chance,
      spot_max_cells := cfg.spot_max_cells,
      quench := cfg.quench,
      merge_r2 := cfg.merge_radius * cfg.merge_radius,
      monitor_r := cfg.monitor_radius,
      zone_r0 := cfg.suppress_radius,
      delay_s := cfg.stop_delay,
      grow_v := cfg.grow_speed,
      recover_T := cfg.recover_T,
      px_to_m := match cfg.px_to_meter with
        | some v => if 0 < v then v else (cfg.target_kmh / (36 / 10)) / max cfg.speed (1 / 10 ^ 6)
        | none => (cfg.target_kmh / (36 / 10)) / max cfg.speed (1 / 10 ^ 6) }

/-- The configuration values `Drone.__init__` reads: the screen size (the
four search sectors split it), the FOV and duty parameters, and the Monte
Carlo routing block `mc_*` including the planner cell size `mc_cell_px`. -/
structure DroneConfig where
  screen_w : ℤ
  screen_h : ℤ
  drone_radius : ℝ
  fov_angle_deg : ℝ
  altitude_px : ℝ
  speed : ℝ
  meters_per_px : Option ℝ
  cruise_kmh : ℝ
  mc_cell_px : ℤ
  mc_candidates : ℤ
  mc_replan_seconds : ℝ
  mc_cost_per_px : ℝ
  mc_detect_strength : ℝ
  mc_diffusion : ℝ
  work_T : ℝ
  charge_T : ℝ
  jitter_frac : ℝ
  return_threshold : ℝ
  reserve_seconds : ℝ
  det_min_frac : ℝ
  det_confirm_time : ℝ
  det_cooldown_s : ℝ

/-- Per-sensor derived parameters built by `Drone.__init__`, including the
routing-belief grid dimensions of the four sectors. -/
structure DroneParams where
  radius : ℝ
  fov_radius : ℝ
  speed : ℝ
  m_per_px : ℝ
  cell : ℤ
  K : ℤ
  replan_T : ℝ
  cost_per_px : ℝ
  detect_strength : ℝ
  diffusion : ℝ
  grid_dims : List (ℤ × ℤ)
  work_T : ℝ
  charge_T : ℝ
  jitter_frac : ℝ
  return_threshold : ℝ
  reserve_seconds : ℝ
  det_min_frac : ℝ
  det_confirm_time : ℝ
  det_cooldown_s : ℝ

/-- Degrees to radians (`math.radians`). -/
noncomputable def radians (x : ℝ) : ℝ := x * Real.pi / 180

/-- `_sector_safe_rect` width and height: each sector edge moves inward by
the FOV margin, inverted edges are swapped, and the result is truncated to
an integer — so each dimension is `int(|sector_dim - 2 * margin|)`. -/
noncomputable def sectorSafeDims (rw rh : ℤ) (margin : ℝ) : ℤ × ℤ :=
  (⌊|(rw : ℝ) - 2 * margin|⌋, ⌊|(rh : ℝ) - 2 * margin|⌋)

/-- Routing-belief grid dimensions of one safe rect
(`nx = max(1, ceil(width / cell))` and likewise for `ny`): the divisions by
the planner cell size are the `ZeroDivisionError` site of `Drone.__init__`
when `mc_cell_px` is zero. -/
noncomputable def beliefDims (cell sw sh : ℤ) : ℤ × ℤ :=
  (max 1 ⌈(sw : ℝ) / (cell : ℝ)⌉, max 1 ⌈(sh : ℝ) / (cell : ℝ)⌉)

/-- Construction of the sensor fleet, from `Drone.__init__`: the footprint
radius is `altitude * tan(radians(fov / 2))`, the spatial scale falls back
to `cruise / max(speed, 1e-6)`, and the four routing-belief grids are built
over the sector safe rects with `nx = max(1, ceil(width / cell))` per axis
— a division that raises `ZeroDivisionError` when `mc_cell_px` is zero; no
other input is rejected. -/
noncomputable def mkDrone (cfg : DroneConfig) : Option DroneParams :=
  if cfg.mc_cell_px = 0 then none
  else
    let fovR := cfg.altitude_px * Real.tan (radians (cfg.fov_angle_deg / 2))
    let safe := sectorSafeDims (Int.fdiv cfg.screen_w 2) (Int.fdiv cfg.screen_h 2) fovR
    some
      { radius := cfg.drone_radius,
        fov_radius := fovR,
        speed := cfg.speed,
        m_per_px := match cfg.meters_per_px with
          | some v => if 0 < v then v else (cfg.cruise_kmh / (36 / 10)) / max cfg.speed (1 / 10 ^ 6)
          | none => (cfg.cruise_kmh / (36 / 10)) / max cfg.speed (1 / 10 ^ 6),
        cell := cfg.mc_cell_px,
        K := cfg.mc_candidates,
        replan_T := cfg.mc_replan_seconds,
        cost_per_px := cfg.mc_cost_per_px,
        detect_strength := cfg.mc_detect_strength,
        diffusion := cfg.mc_diffusion,
        grid_dims := List.replicate 4 (beliefDims cfg.mc_cell_px safe.1 safe.2),
        work_T := cfg.work_T,
        charge_T := cfg.charge_T,
        jitter_frac := cfg.jitter_frac,
        return_threshold := cfg.return_threshold,
        reserve_seconds := cfg.reserve_seconds,
        det_min_frac := cfg.det_min_frac,
        det_confirm_time := cfg.det_confirm_time,
        det_cooldown_s := cfg.det_cooldown_s }

/-- The default settings of `configs/settings.py`, with a negative monitor
radius substituted, as a concrete out-of-range configuration. -/
def cfgNegRadius : FireConfig ℚ :=
  { screen_w := 1280, screen_h := 720, cell_px := 8, ros_scale := 1/2, R0 := 8,
    k_ignite := 3/5, wind_speed := 8, wind_dir_deg := 25, c_w := 45/1000, b_w := 7/5,
    slope_deg := 5, slope_dir_deg := 180, c_s := 8/100, b_s := 2, moisture_live := 18/100,
    moisture_ext := 35/100, fuel_mean := 1, fuel_var := 1/4, burn_duration := 18,
    spot_chance := 2/10000, spot_max_cells := 10, quench := 6, merge_radius := 100,
    monitor_radius := -5, suppress_radius := 90, stop_delay := 2, grow_speed := 160,
    recover_T := 25, px_to_meter := none, target_kmh := 90, speed := 80 }

/-- Claim C9 as stated is false: the configuration `cfgNegRadius` carries a
negative (monitor) radius, yet `Fire` construction succeeds — no
configuration-rejected error exists in the constructor. -/
theorem C9_construction_counterexample :
    cfgNegRadius.monitor_radius < 0 ∧ (mkFire cfgNegRadius).isSome = true := by
  constructor
  · norm_num [cfgNegRadius]
  · rfl

/-- Claim C9 (amended): construction performs no parameter validation.
`Fire` construction succeeds exactly when the fire cell size is nonzero and
`Drone` construction exactly when the planner cell size `mc_cell_px` is
nonzero — out-of-range values such as negative radii are accepted, and the
zero cell sizes fail only with incidental division-by-zero errors in the
grid setup, not a configuration-rejected error. -/
theorem C9_construction_amended :
    (∀ cfg : FireConfig ℚ, (mkFire cfg).isSome = true ↔ cfg.cell_px ≠ 0) ∧
    (∀ cfg : DroneConfig, (mkDrone cfg).isSome = true ↔ cfg.mc_cell_px ≠ 0) := by
  constructor
  · intro cfg
    by_cases h : cfg.cell_px = 0
    · simp [mkFire, h]
    · simp [mkFire, h]
  · intro cfg
    by_cases h : cfg.mc_cell_px = 0
    · simp [mkDrone, h]
    · simp [mkDrone, h]

/-! ### The mutating activity query (claim C10) -/

theorem iiaGo_skip [FloorRing K] (p : FireParams K) (st : FireState K) (incId : ℕ)
    (pre : List (Incident K)) (hpre : ∀ x ∈ pre, x.id ≠ incId) (rest : List (Incident K)) :
    iiaGo p st incId (pre ++ rest)
      = ((iiaGo p st incId rest).1, pre ++ (iiaGo p st incId rest).2.1,
          (iiaGo p st incId rest).2.2.1, (iiaGo p st incId rest).2.2.2) := by
  induction pre with
  | nil => rfl
  | cons a pre2 ih =>
    have ha : a.id ≠ incId := hpre a (List.mem_cons_self a pre2)
    simp only [List.cons_append, iiaGo, if_pos ha, List.append_eq]
    rw [ih (fun x hx => hpre x (List.mem_cons_of_mem a hx))]

theorem updateIncGo_ext [FloorRing K] (p : FireParams K) (dt : K) :
    ∀ (incs : List (Incident K)) (st : FireState K),
      ((updateIncGo p dt incs st).1).map Incident.extinguished_t
        = incs.map Incident.extinguished_t := by
  intro incs
  induction incs with
  | nil => intro st; rfl
  | cons a rest ih =>
    intro st
    simp only [updateIncGo]
    split_ifs with h1 h2 h3 <;> simp [ih]

/-- Claim C10: `incident_is_active` is a mutating query.  On a zone-live
incident with no tagged BURNING cell, the first call (still lacking
`extinguished_t`) stamps `extinguished_t = sim_t`, clears the active flag,
stores and appends the tag-footprint final area and increments the
extinguished counter; every later call returns false and leaves the state
unchanged; and neither `register_incident` nor the per-tick incident pass
ever sets `extinguished_t` (registration only appends fresh records with
`extinguished_t = None`), so a burned-out incident keeps `extinguished_t =
None` until some caller queries it. -/
theorem C10_incident_is_active_mutating_query (p : FireParams ℚ) (st : FireState ℚ)
    (I : ℕ) (pre post : List (Incident ℚ)) (inc : Incident ℚ)
    (hsplit : st.incidents = pre ++ inc :: post)
    (hpre : ∀ x ∈ pre, x.id ≠ I)
    (hid : inc.id = I)
    (hlive : inc.zone_live = true)
    (hnob : ∀ i, ¬(st.tag i = I ∧ st.state i = Cell.BURNING)) :
    (inc.extinguished_t = none →
      incidentIsActive p st I = (false,
        { st with
            incidents := pre ++ ({ inc with active := false, extinguished_t := some st.sim_t, final_area := some (incidentAreaByTag p st I) } :: post),
            final_areas := st.final_areas ++ [incidentAreaByTag p st I],
            extinguished_count := st.extinguished_count + 1 })) ∧
    (∀ t0 : ℚ, inc.extinguished_t = some t0 → incidentIsActive p st I = (false, st)) ∧
    (∀ (st2 : FireState ℚ) (cx cy : ℚ), ∃ tail,
      ((registerIncident p st2 cx cy).2.incidents).map Incident.extinguished_t
        = st2.incidents.map Incident.extinguished_t ++ tail ∧ ∀ t ∈ tail, t = none) ∧
    (∀ (st2 : FireState ℚ) (dt : ℚ),
      ((updateIncidents p st2 dt).incidents).map Incident.extinguished_t
        = st2.incidents.map Incident.extinguished_t) := by
  have hany : st.active.any (fun idx =>
      decide (st.tag idx = I ∧ st.state idx = Cell.BURNING)) = false := by
    rw [List.any_eq_false]
    intro idx _
    simpa using hnob idx
  have hskip := iiaGo_skip p st I pre hpre (inc :: post)
  refine ⟨?_, ?_, ?_, ?_⟩
  · intro hext
    have hgo : iiaGo p st I (inc :: post)
        = (false, { inc with active := false, extinguished_t := some st.sim_t, final_area := some (incidentAreaByTag p st I) } :: post, [incidentAreaByTag p st I], 1) := by
      simp [iiaGo, hid, hlive, hany, hext]
      exact fun x _ h1 h2 => hnob x ⟨h1, h2⟩
    unfold incidentIsActive
    dsimp only
    rw [hsplit, hskip, hgo]
  · intro t0 hext
    have hgo : iiaGo p st I (inc :: post) = (false, inc :: post, [], 0) := by
      simp [iiaGo, hid, hlive, hany, hext]
      exact fun x _ h1 h2 => hnob x ⟨h1, h2⟩
    unfold incidentIsActive
    dsimp only
    rw [hsplit, hskip, hgo, ← hsplit, List.append_nil, Nat.add_zero]
  · intro st2 cx cy
    rcases hf : List.find? (fun inc => inc.active && decide
        ((cx - inc.cx) * (cx - inc.cx) + (cy - inc.cy) * (cy - inc.cy) ≤ p.merge_r2))
        st2.incidents with _ | inc2
    · refine ⟨[none], ?_, by simp⟩
      simp only [registerIncident, hf]
      simp
    · refine ⟨[], by simp [registerIncident, hf], by simp⟩
  · intro st2 dt
    show ((updateIncGo p dt st2.incidents st2).1).map Incident.extinguished_t = _
    exact updateIncGo_ext p dt st2.incidents st2

/-- Minimal concrete fire parameters used by witnesses. -/
def pWit : FireParams ℚ :=
  { GW := 1, GH := 1, cell := 1, ros_scale := 1, R0 := 1, k_ignite := 1, wind_speed := 0,
    wind_dir_deg := 0, c_w := 0, b_w := 1, slope_deg := 0, slope_dir_deg := 0, c_s := 0,
    b_s := 2, moisture_live := 0, moisture_ext := 1, fuel_mean := 1, fuel_var := 0,
    burn_duration := 10, spot_chance := 0, spot_max_cells := 1, quench := 6, merge_r2 := 100,
    monitor_r := 10, zone_r0 := 5, delay_s := 2, grow_v := 1, recover_T := 25, px_to_m := 1 }

/-- A zone-live incident record with `extinguished_t` still unset. -/
def incWit : Incident ℚ :=
  { id := 1, cx := 0, cy := 0, monitor_r := 10, delay := 0, zone_live := true, zone_r := 5,
    active := true, ignited_t := 0, detected_t := 1, suppressed_t := some 2,
    extinguished_t := none, detect_area := 1, final_area := none,
    announced_suppression := false, announced_extinguished := false }

/-- A fire state holding `incWit` with no burning cells. -/
def stWit : FireState ℚ :=
  { state := fun _ => Cell.UNBURNED, burn_t := fun _ => 0, t_ignited := fun _ => none,
    fuel := fun _ => 1, moist := fun _ => 0, tag := fun _ => 0, sim_t := 5, active := [],
    regen_t := fun _ => 0, regen_accum := 0, ever_burned := fun _ => false,
    incidents := [incWit], next_incident_id := 2, det_times := [], detect_areas := [],
    final_areas := [], dispatch_count := 1, extinguished_count := 0, user_ignitions := 0,
    undetected_count := 0, episode_has_incident := true, kF := 0, kI := 0 }

theorem C10_incident_is_active_mutating_query_witness :
    (stWit.incidents = [] ++ incWit :: [] ∧ (∀ x ∈ ([] : List (Incident ℚ)), x.id ≠ 1) ∧
      incWit.id = 1 ∧ incWit.zone_live = true ∧
      (∀ i, ¬(stWit.tag i = 1 ∧ stWit.state i = Cell.BURNING))) ∧
    ((incWit.extinguished_t = none →
      incidentIsActive pWit stWit 1 = (false,
        { stWit with
            incidents := [] ++ ({ incWit with active := false, extinguished_t := some stWit.sim_t, final_area := some (incidentAreaByTag pWit stWit 1) } :: []),
            final_areas := stWit.final_areas ++ [incidentAreaByTag pWit stWit 1],
            extinguished_count := stWit.extinguished_count + 1 })) ∧
    (∀ t0 : ℚ, incWit.extinguished_t = some t0 → incidentIsActive pWit stWit 1 = (false, stWit)) ∧
    (∀ (st2 : FireState ℚ) (cx cy : ℚ), ∃ tail,
      ((registerIncident pWit st2 cx cy).2.incidents).map Incident.extinguished_t
        = st2.incidents.map Incident.extinguished_t ++ tail ∧ ∀ t ∈ tail, t = none) ∧
    (∀ (st2 : FireState ℚ) (dt : ℚ),
      ((updateIncidents pWit st2 dt).incidents).map Incident.extinguished_t
        = st2.incidents.map Incident.extinguished_t)) :=
  ⟨⟨rfl, fun x hx => absurd hx (List.not_mem_nil x), rfl, rfl,
      fun i h => absurd h.1 (by simp [stWit])⟩,
    C10_incident_is_active_mutating_query pWit stWit 1 [] [] incWit rfl
      (fun x hx => absurd hx (List.not_mem_nil x)) rfl rfl
      (fun i h => absurd h.1 (by simp [stWit]))⟩

/-! ### Detection and HOLD (claim C5), from `Drone._maybe_detect_and_report` -/

/-- Sensor phases (the `Drone` phase constants). -/
inductive Phase
  | APPROACH
  | SEARCH
  | RETURN
  | RECHARGE
  | HOLD
deriving DecidableEq

/-- Per-sensor detection state (slot `i` of the `Drone` arrays). -/
structure SensorSt (K : Type) where
  phase : Phase
  px : K
  py : K
  det_hold : K
  det_cooldown : K
  holding : Option ℕ

/-- Detection tuning read by `_maybe_detect_and_report`. -/
structure DetectCfg (K : Type) where
  fov_radius : K
  det_min_frac : K
  det_confirm_time : K
  det_cooldown_s : K

/-- Centroid of the hotspot centers, falling back to the sensor position
when the list is empty. -/
def detectPoint (s : SensorSt K) (hot : List (K × K)) : K × K :=
  if hot ≠ [] then
    (((hot.map Prod.fst).sum) / (hot.length : K), ((hot.map Prod.snd).sum) / (hot.length : K))
  else (s.px, s.py)

/-- One tick of `Drone._maybe_detect_and_report` for a single sensor: HOLD
and cooling-down sensors return early; the detection hold accumulates while
the burning fraction is at least `det_min_frac` and resets otherwise; on
reaching `det_confirm_time` the hold resets, the cooldown arms, an incident
is registered at the hotspot centroid (or the sensor position), and — only
when the registration created a new incident — the sensor enters HOLD with
that id. -/
def maybeDetect [FloorRing K] (dc : DetectCfg K) (p : FireParams K) (fire : FireState K)
    (s : SensorSt K) (dt : K) : SensorSt K × FireState K :=
  if s.phase = Phase.HOLD then (s, fire)
  else if 0 < s.det_cooldown then
    ({ s with det_cooldown := max 0 (s.det_cooldown - dt) }, fire)
  else
    let fh := burningFracInDisc p fire s.px s.py dc.fov_radius
    let hold1 := if dc.det_min_frac ≤ fh.1 then s.det_hold + dt else 0
    if hold1 < dc.det_confirm_time then ({ s with det_hold := hold1 }, fire)
    else
      let pt := detectPoint s fh.2
      let res := registerIncident p fire pt.1 pt.2
      if res.1.2 then
        ({ s with det_hold := 0, det_cooldown := dc.det_cooldown_s, phase := Phase.HOLD, holding := some res.1.1 }, res.2)
      else
        ({ s with det_hold := 0, det_cooldown := dc.det_cooldown_s }, res.2)

/-- Claim C5 (amended): on the tick the detection hold reaches
`det_confirm_time` (sensor not in HOLD, cooldown zero, burning fraction at
least `det_min_frac`), the sensor resets the hold, arms the cooldown,
registers an incident at the hotspot centroid (sensor position if no
hotspots) — but it transitions to HOLD holding the returned id only when
the registration created a new incident; when the registration merged into
an already-active incident the phase and held id are unchanged. -/
theorem C5_detection_confirm_amended (dc : DetectCfg ℚ) (p : FireParams ℚ)
    (fire : FireState ℚ) (s : SensorSt ℚ) (dt : ℚ)
    (hphase : s.phase ≠ Phase.HOLD) (hcd : s.det_cooldown = 0)
    (hfrac : dc.det_min_frac ≤ (burningFracInDisc p fire s.px s.py dc.fov_radius).1)
    (hconf : dc.det_confirm_time ≤ s.det_hold + dt) :
    (maybeDetect dc p fire s dt).1.det_hold = 0 ∧
    (maybeDetect dc p fire s dt).1.det_cooldown = dc.det_cooldown_s ∧
    (maybeDetect dc p fire s dt).2 = (registerIncident p fire
      (detectPoint s (burningFracInDisc p fire s.px s.py dc.fov_radius).2).1
      (detectPoint s (burningFracInDisc p fire s.px s.py dc.fov_radius).2).2).2 ∧
    ((registerIncident p fire
        (detectPoint s (burningFracInDisc p fire s.px s.py dc.fov_radius).2).1
        (detectPoint s (burningFracInDisc p fire s.px s.py dc.fov_radius).2).2).1.2 = true →
      (maybeDetect dc p fire s dt).1.phase = Phase.HOLD ∧
      (maybeDetect dc p fire s dt).1.holding = some (registerIncident p fire
        (detectPoint s (burningFracInDisc p fire s.px s.py dc.fov_radius).2).1
        (detectPoint s (burningFracInDisc p fire s.px s.py dc.fov_radius).2).2).1.1) ∧
    ((registerIncident p fire
        (detectPoint s (burningFracInDisc p fire s.px s.py dc.fov_radius).2).1
        (detectPoint s (burningFracInDisc p fire s.px s.py dc.fov_radius).2).2).1.2 = false →
      (maybeDetect dc p fire s dt).1.phase = s.phase ∧
      (maybeDetect dc p fire s dt).1.holding = s.holding) := by
  have hnotcd : ¬ (0 : ℚ) < s.det_cooldown := by rw [hcd]; exact lt_irrefl 0
  have hM : maybeDetect dc p fire s dt
      = (let fh := burningFracInDisc p fire s.px s.py dc.fov_radius
         let pt := detectPoint s fh.2
         let res := registerIncident p fire pt.1 pt.2
         if res.1.2 then
           ({ s with det_hold := 0, det_cooldown := dc.det_cooldown_s, phase := Phase.HOLD, holding := some res.1.1 }, res.2)
         else
           ({ s with det_hold := 0, det_cooldown := dc.det_cooldown_s }, res.2)) := by
    unfold maybeDetect
    rw [if_neg hphase, if_neg hnotcd]
    dsimp only
    rw [if_pos hfrac, if_neg (not_lt.2 hconf)]
  rw [hM]
  dsimp only
  by_cases hnew : (registerIncident p fire
      (detectPoint s (burningFracInDisc p fire s.px s.py dc.fov_radius).2).1
      (detectPoint s (burningFracInDisc p fire s.px s.py dc.fov_radius).2).2).1.2
  · rw [if_pos hnew]
    exact ⟨rfl, rfl, rfl, fun _ => ⟨rfl, rfl⟩, fun hc => absurd hnew (by simp [hc])⟩
  · rw [if_neg hnew]
    exact ⟨rfl, rfl, rfl, fun hc => absurd hc (by simpa using hnew), fun _ => ⟨rfl, rfl⟩⟩

/-- An already-active incident at the origin, as `register_incident` would
have recorded it. -/
def incC5 : Incident ℚ :=
  { id := 1, cx := 0, cy := 0, monitor_r := 10, delay := 2, zone_live := false, zone_r := 0,
    active := true, ignited_t := 0, detected_t := 1, suppressed_t := none,
    extinguished_t := none, detect_area := 1, final_area := none,
    announced_suppression := false, announced_extinguished := false }

/-- A one-cell fire state whose single cell is BURNING and whose incident
list already holds `incC5`. -/
def fireC5 : FireState ℚ :=
  { state := fun _ => Cell.BURNING, burn_t := fun _ => 1, t_ignited := fun _ => some 0,
    fuel := fun _ => 1, moist := fun _ => 0, tag := fun _ => 0, sim_t := 5, active := [0],
    regen_t := fun _ => 0, regen_accum := 0, ever_burned := fun _ => false,
    incidents := [incC5], next_incident_id := 2, det_times := [0], detect_areas := [1],
    final_areas := [], dispatch_count := 0, extinguished_count := 0, user_ignitions := 1,
    undetected_count := 0, episode_has_incident := true, kF := 0, kI := 0 }

/-- A SEARCH-phase sensor at the origin whose detection hold is about to
reach the confirm threshold. -/
def sC5 : SensorSt ℚ :=
  { phase := Phase.SEARCH, px := 0, py := 0, det_hold := 1/2, det_cooldown := 0,
    holding := none }

/-- Detection tuning for the confirm-tick scenario. -/
def dcC5 : DetectCfg ℚ :=
  { fov_radius := 1, det_min_frac := 1/100, det_confirm_time := 1/2, det_cooldown_s := 3 }

/-- Floor of minus one over the rationals. -/
theorem floor_neg_one_q : ⌊(-1 : ℚ)⌋ = -1 := by
  rw [show (-1:ℚ) = ((-1:ℤ):ℚ) by norm_num, Int.floor_intCast]

/-- The sensor at the origin with radius one sees the single burning cell:
fraction one, one hotspot at the cell center. -/
theorem burningFrac_fireC5 :
    burningFracInDisc pWit fireC5 (0:ℚ) 0 1 = (1, [(1/2, 1/2)]) := by
  norm_num [burningFracInDisc, discCells, intRange, inFireDisc, fireCx, fireCy, natIdx,
    pWit, fireC5, floor_neg_one_q, Int.floor_one, List.range_succ]

/-- Registering at the hotspot centroid merges into `incC5`: the call
returns its id with `is_new = false` and only marks the episode. -/
theorem registerC5 :
    registerIncident pWit fireC5 (1/2 : ℚ) (1/2) =
      ((1, false), { fireC5 with episode_has_incident := true }) := by
  unfold registerIncident
  dsimp only
  rw [show fireC5.incidents = [incC5] from rfl]
  rw [List.find?_cons_of_pos _ (by norm_num [incC5, pWit])]
  rfl

/-- Evaluation of the confirm tick at the concrete merged scenario: hold
resets, cooldown arms, but the phase and held id are untouched. -/
theorem maybeDetectC5_eval :
    maybeDetect dcC5 pWit fireC5 sC5 (1/10 : ℚ) =
      ({ sC5 with det_hold := 0, det_cooldown := dcC5.det_cooldown_s },
        { fireC5 with episode_has_incident := true }) := by
  unfold maybeDetect
  rw [if_neg (show ¬ sC5.phase = Phase.HOLD by simp [sC5])]
  rw [if_neg (show ¬ (0:ℚ) < sC5.det_cooldown by simp [sC5])]
  dsimp only
  rw [show sC5.px = (0:ℚ) from rfl, show sC5.py = (0:ℚ) from rfl,
    show dcC5.fov_radius = (1:ℚ) from rfl, burningFrac_fireC5]
  dsimp only
  rw [if_pos (show dcC5.det_min_frac ≤ (1:ℚ) by norm_num [dcC5])]
  rw [if_neg (show ¬ (sC5.det_hold + (1:ℚ)/10 < dcC5.det_confirm_time) by
    norm_num [sC5, dcC5])]
  rw [show detectPoint sC5 [((1:ℚ)/2, 1/2)] = (1/2, 1/2) by norm_num [detectPoint]]
  dsimp only
  rw [registerC5]
  rfl

/-- Claim C5 (counterexample): a SEARCH sensor with zero cooldown whose
hold reaches `det_confirm_time` over a fully burning footprint resets its
hold and arms its cooldown, but because the registration merges into the
already-active incident at the origin the sensor does NOT transition to
HOLD and holds no id — refuting the claim that the transition happens
whether or not the registration merged. -/
theorem C5_detection_confirm_counterexample :
    sC5.phase ≠ Phase.HOLD ∧ sC5.det_cooldown = 0 ∧
    dcC5.det_min_frac ≤ (burningFracInDisc pWit fireC5 sC5.px sC5.py dcC5.fov_radius).1 ∧
    dcC5.det_confirm_time ≤ sC5.det_hold + 1/10 ∧
    (maybeDetect dcC5 pWit fireC5 sC5 (1/10 : ℚ)).1.det_cooldown = dcC5.det_cooldown_s ∧
    ¬ ((maybeDetect dcC5 pWit fireC5 sC5 (1/10 : ℚ)).1.phase = Phase.HOLD) ∧
    (maybeDetect dcC5 pWit fireC5 sC5 (1/10 : ℚ)).1.holding = none := by
  refine ⟨by simp [sC5], rfl, ?_, by norm_num [sC5, dcC5], ?_, ?_, ?_⟩
  · rw [show sC5.px = (0:ℚ) from rfl, show sC5.py = (0:ℚ) from rfl,
      show dcC5.fov_radius = (1:ℚ) from rfl, burningFrac_fireC5]
    norm_num [dcC5]
  · rw [maybeDetectC5_eval]
  · rw [maybeDetectC5_eval]; simp [sC5]
  · rw [maybeDetectC5_eval]; rfl

/-- Witness for the amended C5 theorem at the concrete merged scenario. -/
theorem C5_detection_confirm_amended_witness :
    (maybeDetect dcC5 pWit fireC5 sC5 (1/10 : ℚ)).1.det_hold = 0 ∧
    (maybeDetect dcC5 pWit fireC5 sC5 (1/10 : ℚ)).1.det_cooldown = dcC5.det_cooldown_s := by
  have h := C5_detection_confirm_amended dcC5 pWit fireC5 sC5 (1/10)
    (by simp [sC5]) rfl
    (by rw [show sC5.px = (0:ℚ) from rfl, show sC5.py = (0:ℚ) from rfl,
        show dcC5.fov_radius = (1:ℚ) from rfl, burningFrac_fireC5]
        norm_num [dcC5])
    (by norm_num [sC5, dcC5])
  exact ⟨h.1, h.2.1⟩

/-- Wind direction unit vector `(cos wd, sin wd)` of `Fire.__init__`. -/
noncomputable def windUnit (p : FireParams ℝ) : ℝ × ℝ :=
  (Real.cos (radians p.wind_dir_deg), Real.sin (radians p.wind_dir_deg))

/-- Slope aspect unit vector of `Fire.__init__`. -/
noncomputable def slopeUnit (p : FireParams ℝ) : ℝ × ℝ :=
  (Real.cos (radians p.slope_dir_deg), Real.sin (radians p.slope_dir_deg))

/-- Tangent of the slope angle (`Fire.tan_slope`). -/
noncomputable def tanSlope (p : FireParams ℝ) : ℝ := Real.tan (radians p.slope_deg)

/-- Diagonal neighbour distance `cell * sqrt 2` (`Fire.cell_diag`). -/
noncomputable def cellDiag (p : FireParams ℝ) : ℝ := p.cell * Real.sqrt 2

/-- The 8-neighbour table `Fire.neigh`: offsets with their pixel distances. -/
noncomputable def neighFire (p : FireParams ℝ) : List (ℤ × ℤ × ℝ) :=
  [(-1, 0, p.cell), (1, 0, p.cell), (0, -1, p.cell), (0, 1, p.cell),
   (-1, -1, cellDiag p), (1, -1, cellDiag p), (1, 1, cellDiag p), (-1, 1, cellDiag p)]

/-- Directional rate of spread `Fire._ros_directional` for the direction
vector `(dux, duy)` and the target fuel and moisture. -/
noncomputable def rosDirectional (p : FireParams ℝ) (dux duy fuel moist : ℝ) : ℝ :=
  let dryness := max 0 (1 - moist / max (1/10^6) p.moisture_ext)
  let cosw := max 0 (dux * (windUnit p).1 + duy * (windUnit p).2)
  let phiw := p.c_w * (max 0 p.wind_speed) ^ p.b_w * cosw ^ max 1 (p.b_w * (1/2))
  let coss := max 0 (dux * (slopeUnit p).1 + duy * (slopeUnit p).2)
  let phis := p.c_s * tanSlope p ^ p.b_s * coss ^ (2:ℝ)
  p.ros_scale * p.R0 * (1 + phiw + phis) * max 0 fuel * dryness

/-- The ignition probability computed in the spread loop of `Fire.update`
for offset `(dx, dy)` at table distance `dpx`: the direction vector is the
offset divided by `hypot(dx, dy) + 1e-12`, and
`p = 1 - exp(-max(0, k_ignite * (R * dt / max(dpx, 1e-6))))`. -/
noncomputable def spreadIgniteProb (p : FireParams ℝ) (dx dy : ℤ) (dpx dt fuel moist : ℝ) : ℝ :=
  let mag := Real.sqrt ((dx:ℝ)^2 + (dy:ℝ)^2) + 1/10^12
  let R := rosDirectional p ((dx:ℝ)/mag) ((dy:ℝ)/mag) fuel moist
  1 - Real.exp (-(max 0 (p.k_ignite * (R * dt / max dpx (1/10^6)))))

/-- Spec-side formula of claim C1, written from its words: the direction is
the exact unit vector of the offset and the rate is divided by the raw
distance `dpx`, with no epsilon guards. -/
noncomputable def igniteProbClaim (p : FireParams ℝ) (dx dy : ℤ) (dpx dt fuel moist : ℝ) : ℝ :=
  let mag := Real.sqrt ((dx:ℝ)^2 + (dy:ℝ)^2)
  let dirx := (dx:ℝ)/mag
  let diry := (dy:ℝ)/mag
  let dry := max 0 (1 - moist / max (1/10^6) p.moisture_ext)
  let cosw := max 0 (dirx * (windUnit p).1 + diry * (windUnit p).2)
  let phiw := p.c_w * (max 0 p.wind_speed) ^ p.b_w * cosw ^ max 1 (p.b_w * (1/2))
  let coss := max 0 (dirx * (slopeUnit p).1 + diry * (slopeUnit p).2)
  let phis := p.c_s * tanSlope p ^ p.b_s * coss ^ (2:ℝ)
  let R := p.ros_scale * p.R0 * (1 + phiw + phis) * max 0 fuel * dry
  1 - Real.exp (-(max 0 (p.k_ignite * R * dt / dpx)))

/-- Spec-side formula of claim C1 amended to the source: the direction
vector is the offset divided by `hypot + 1e-12` and the distance is guarded
by `max(dpx, 1e-6)`, exactly as the spread loop computes them. -/
noncomputable def igniteProbClaimEps (p : FireParams ℝ) (dx dy : ℤ) (dpx dt fuel moist : ℝ) : ℝ :=
  let mag := Real.sqrt ((dx:ℝ)^2 + (dy:ℝ)^2) + 1/10^12
  let dirx := (dx:ℝ)/mag
  let diry := (dy:ℝ)/mag
  let dry := max 0 (1 - moist / max (1/10^6) p.moisture_ext)
  let cosw := max 0 (dirx * (windUnit p).1 + diry * (windUnit p).2)
  let phiw := p.c_w * (max 0 p.wind_speed) ^ p.b_w * cosw ^ max 1 (p.b_w * (1/2))
  let coss := max 0 (dirx * (slopeUnit p).1 + diry * (slopeUnit p).2)
  let phis := p.c_s * tanSlope p ^ p.b_s * coss ^ (2:ℝ)
  let R := p.ros_scale * p.R0 * (1 + phiw + phis) * max 0 fuel * dry
  1 - Real.exp (-(max 0 (p.k_ignite * (R * dt / max dpx (1/10^6)))))

/-- The state threaded through the frontier loop of `Fire.update`: the
engine state (whose `active` list is the part of the iterated list not yet
visited), the `next_active` accumulator and the `seen_next` set. -/
structure LoopSt where
  fs : FireState ℝ
  nextA : List ℕ
  seen : List ℕ

/-- Signed x-coordinate of the neighbour at offset `dx` of cell `idx`. -/
def neighGx (p : FireParams ℝ) (idx : ℕ) (dx : ℤ) : ℤ := ((idx % p.GW : ℕ) : ℤ) + dx

/-- Signed y-coordinate of the neighbour at offset `dy` of cell `idx`. -/
def neighGy (p : FireParams ℝ) (idx : ℕ) (dy : ℤ) : ℤ := ((idx / p.GW : ℕ) : ℤ) + dy

/-- One neighbour visit of the spread loop of `Fire.update`: out-of-grid
and non-UNBURNED neighbours are skipped without consuming randomness; an
UNBURNED neighbour consumes one uniform draw and ignites when it falls
below the ignition probability, entering `next_active` and `seen_next`
unless already seen. -/
noncomputable def spreadNeighbor (p : FireParams ℝ) (dt : ℝ) (rngF : ℕ → ℝ) (idx : ℕ)
    (L : LoopSt) (n : ℤ × ℤ × ℝ) : LoopSt :=
  if inGrid p (neighGx p idx n.1) (neighGy p idx n.2.1) then
    let nidx := toIdx p (neighGx p idx n.1) (neighGy p idx n.2.1)
    if L.fs.state nidx = Cell.UNBURNED then
      if rngF L.fs.kF < spreadIgniteProb p n.1 n.2.1 n.2.2 dt (L.fs.fuel nidx) (L.fs.moist nidx) then
        let fs1 := { L.fs with state := Function.update L.fs.state nidx Cell.BURNING, burn_t := Function.update L.fs.burn_t nidx 0, t_ignited := Function.update L.fs.t_ignited nidx (some L.fs.sim_t), kF := L.fs.kF + 1 }
        if nidx ∈ L.seen then { L with fs := fs1 }
        else { fs := fs1, nextA := L.nextA ++ [nidx], seen := L.seen ++ [nidx] }
      else { L with fs := { L.fs with kF := L.fs.kF + 1 } }
    else L
  else L

/-- Ember spotting `Fire._ember_spot` from source cell `(gx, gy)`: one
uniform draw decides whether a spot is attempted; an attempt consumes one
integer draw for the distance and ignites the downwind cell through
`Fire._ignite_cell` (whose append lands on the iterated active list). -/
noncomputable def emberSpot (p : FireParams ℝ) (rngF : ℕ → ℝ) (rngI : ℕ → ℕ) (gx gy : ℤ)
    (fs : FireState ℝ) : FireState ℝ :=
  if p.spot_chance ≤ rngF fs.kF then { fs with kF := fs.kF + 1 }
  else
    let dist : ℕ := 1 + rngI fs.kI % max 1 p.spot_max_cells
    let fs1 : FireState ℝ := { fs with kF := fs.kF + 1, kI := fs.kI + 1 }
    let dx : ℤ := if 1/5 < (windUnit p).1 then 1 else if (windUnit p).1 < -(1/5) then -1 else 0
    let dy : ℤ := if 1/5 < (windUnit p).2 then 1 else if (windUnit p).2 < -(1/5) then -1 else 0
    if dx = 0 ∧ dy = 0 then fs1
    else igniteCell p fs1 (gx + (dist : ℤ) * dx) (gy + (dist : ℤ) * dy)

/-- One iteration of the frontier loop of `Fire.update` on cell `idx`:
non-BURNING cells are skipped; the burn clock advances (quench-boosted for
cells tagged by a live suppression zone) and the cell either burns out or
re-enters the frontier; untagged survivors run the stochastic spread over
the 8 neighbours and then ember spotting when `spot_chance > 0`. -/
noncomputable def cellStep (p : FireParams ℝ) (dt : ℝ) (liveTags : List ℕ) (rngF : ℕ → ℝ)
    (rngI : ℕ → ℕ) (L : LoopSt) (idx : ℕ) : LoopSt :=
  if L.fs.state idx ≠ Cell.BURNING then L
  else
    let boost : ℝ := if L.fs.tag idx ∈ liveTags then 1 + p.quench else 1
    let bt := L.fs.burn_t idx + dt * boost
    if p.burn_duration ≤ bt then
      { L with fs := { L.fs with burn_t := Function.update L.fs.burn_t idx bt, state := Function.update L.fs.state idx Cell.BURNED, ever_burned := Function.update L.fs.ever_burned idx true } }
    else
      let L1 : LoopSt := { L with fs := { L.fs with burn_t := Function.update L.fs.burn_t idx bt }, nextA := L.nextA ++ [idx] }
      if L.fs.tag idx ∈ liveTags then L1
      else
        let L2 := (neighFire p).foldl (spreadNeighbor p dt rngF idx) L1
        if 0 < p.spot_chance then
          { L2 with fs := emberSpot p rngF rngI ((idx % p.GW : ℕ) : ℤ) ((idx / p.GW : ℕ) : ℤ) L2.fs }
        else L2

/-- Number of UNBURNED cells of the grid, the potential for new ignitions. -/
def unburnedCnt (N : ℕ) (stF : ℕ → Cell) : ℕ :=
  ((Finset.range N).filter (fun j => stF j = Cell.UNBURNED)).card

omit [LinearOrderedField K] in
theorem unburnedCnt_update_le (N : ℕ) (stF : ℕ → Cell) (idx : ℕ) (c : Cell)
    (hc : c ≠ Cell.UNBURNED) :
    unburnedCnt N (Function.update stF idx c) ≤ unburnedCnt N stF := by
  apply Finset.card_le_card
  intro j hj
  simp only [Finset.mem_filter, Finset.mem_range] at hj ⊢
  refine ⟨hj.1, ?_⟩
  rcases eq_or_ne j idx with rfl | hne
  · rw [Function.update_same] at hj; exact absurd hj.2 hc
  · have := hj.2; rwa [Function.update_noteq hne] at this

omit [LinearOrderedField K] in
theorem unburnedCnt_update_lt (N : ℕ) (stF : ℕ → Cell) (idx : ℕ) (c : Cell)
    (hidx : idx < N) (hU : stF idx = Cell.UNBURNED) (hc : c ≠ Cell.UNBURNED) :
    unburnedCnt N (Function.update stF idx c) < unburnedCnt N stF := by
  have hsub : (Finset.range N).filter (fun j => Function.update stF idx c j = Cell.UNBURNED)
      ⊆ (Finset.range N).filter (fun j => stF j = Cell.UNBURNED) := by
    intro j hj
    simp only [Finset.mem_filter, Finset.mem_range] at hj ⊢
    refine ⟨hj.1, ?_⟩
    rcases eq_or_ne j idx with rfl | hne
    · rw [Function.update_same] at hj; exact absurd hj.2 hc
    · have := hj.2; rwa [Function.update_noteq hne] at this
  apply Finset.card_lt_card
  rw [Finset.ssubset_iff_of_subset hsub]
  refine ⟨idx, ?_, ?_⟩
  · simp [Finset.mem_filter, Finset.mem_range, hidx, hU]
  · simp [Finset.mem_filter, Function.update_same, hc]

/-- Fold preservation of a bound on a natural-valued measure. -/
theorem foldl_measure_le {α β : Type} (m : β → ℕ) (f : β → α → β)
    (h : ∀ b a, m (f b a) ≤ m b) : ∀ (l : List α) (b : β), m (List.foldl f b l) ≤ m b := by
  intro l
  induction l with
  | nil => intro b; exact le_refl _
  | cons a rest ih => intro b; exact le_trans (ih (f b a)) (h b a)

/-- Fold preservation of an invariant. -/
theorem foldl_pres {α β : Type} (P : β → Prop) (f : β → α → β)
    (h : ∀ b a, P b → P (f b a)) : ∀ (l : List α) (b : β), P b → P (List.foldl f b l) := by
  intro l
  induction l with
  | nil => intro b hb; exact hb
  | cons a rest ih => intro b hb; exact ih (f b a) (h b a hb)

theorem igniteCell_meas (p : FireParams K) (st : FireState K) (gx gy : ℤ) :
    (igniteCell p st gx gy).active.length + unburnedCnt (p.GW * p.GH) (igniteCell p st gx gy).state
      ≤ st.active.length + unburnedCnt (p.GW * p.GH) st.state := by
  unfold igniteCell
  split_ifs with h1 h2
  · have hlt := unburnedCnt_update_lt (p.GW * p.GH) st.state (toIdx p gx gy) Cell.BURNING
      (toIdx_lt p h1) h2.1 (by decide)
    simp only [List.length_append, List.length_singleton]
    omega
  · exact le_refl _
  · exact le_refl _

theorem emberSpot_meas (p : FireParams ℝ) (rngF : ℕ → ℝ) (rngI : ℕ → ℕ) (gx gy : ℤ)
    (fs : FireState ℝ) :
    (emberSpot p rngF rngI gx gy fs).active.length
        + unburnedCnt (p.GW * p.GH) (emberSpot p rngF rngI gx gy fs).state
      ≤ fs.active.length + unburnedCnt (p.GW * p.GH) fs.state := by
  unfold emberSpot
  split_ifs <;> first
    | exact le_refl _
    | exact igniteCell_meas p _ _ _

theorem spreadNeighbor_meas (p : FireParams ℝ) (dt : ℝ) (rngF : ℕ → ℝ) (idx : ℕ)
    (L : LoopSt) (n : ℤ × ℤ × ℝ) :
    (spreadNeighbor p dt rngF idx L n).fs.active.length
        + unburnedCnt (p.GW * p.GH) (spreadNeighbor p dt rngF idx L n).fs.state
      ≤ L.fs.active.length + unburnedCnt (p.GW * p.GH) L.fs.state := by
  unfold spreadNeighbor
  dsimp only
  split_ifs <;> first
    | exact le_refl _
    | exact Nat.add_le_add (le_refl _) (unburnedCnt_update_le _ _ _ _ (by decide))

theorem cellStep_meas (p : FireParams ℝ) (dt : ℝ) (liveTags : List ℕ) (rngF : ℕ → ℝ)
    (rngI : ℕ → ℕ) (L : LoopSt) (idx : ℕ) :
    (cellStep p dt liveTags rngF rngI L idx).fs.active.length
        + unburnedCnt (p.GW * p.GH) (cellStep p dt liveTags rngF rngI L idx).fs.state
      ≤ L.fs.active.length + unburnedCnt (p.GW * p.GH) L.fs.state := by
  unfold cellStep
  dsimp only
  split_ifs <;> first
    | exact le_refl _
    | exact Nat.add_le_add (le_refl _) (unburnedCnt_update_le _ _ _ _ (by decide))
    | exact le_trans (emberSpot_meas p rngF rngI _ _ _)
        (foldl_measure_le
          (fun b => b.fs.active.length + unburnedCnt (p.GW * p.GH) b.fs.state)
          (spreadNeighbor p dt rngF idx)
          (fun b a => spreadNeighbor_meas p dt rngF idx b a) (neighFire p) _)
    | exact foldl_measure_le
        (fun b => b.fs.active.length + unburnedCnt (p.GW * p.GH) b.fs.state)
        (spreadNeighbor p dt rngF idx)
        (fun b a => spreadNeighbor_meas p dt rngF idx b a) (neighFire p) _

/-- The frontier loop of `Fire.update`: Python iterates `self.active` while
`_ignite_cell` may append to it, so the loop runs until the unvisited part
of the list is exhausted. -/
noncomputable def fireLoop (p : FireParams ℝ) (dt : ℝ) (liveTags : List ℕ) (rngF : ℕ → ℝ)
    (rngI : ℕ → ℕ) (L : LoopSt) : LoopSt :=
  if h : L.fs.active = [] then L
  else
    fireLoop p dt liveTags rngF rngI
      (cellStep p dt liveTags rngF rngI { L with fs := { L.fs with active := L.fs.active.tail } }
        (L.fs.active.head h))
termination_by L.fs.active.length + unburnedCnt (p.GW * p.GH) L.fs.state
decreasing_by
  have h1 := cellStep_meas p dt liveTags rngF rngI
    { L with fs := { L.fs with active := L.fs.active.tail } } (L.fs.active.head h)
  have h2 : L.fs.active.tail.length = L.fs.active.length - 1 := List.length_tail _
  have h3 : 0 < L.fs.active.length := List.length_pos.mpr h
  simp only at h1 ⊢
  omega

/-- Invariant of the frontier loop: the unvisited queue and the rebuilt
frontier are disjoint and duplicate-free, hold only BURNING cells, jointly
cover every BURNING cell, and the seen set lies inside the rebuilt
frontier. -/
def LoopInv (L : LoopSt) : Prop :=
  (L.fs.active ++ L.nextA).Nodup ∧
  (∀ j ∈ L.fs.active, L.fs.state j = Cell.BURNING) ∧
  (∀ j ∈ L.nextA, L.fs.state j = Cell.BURNING) ∧
  (∀ j, L.fs.state j = Cell.BURNING → j ∈ L.fs.active ∨ j ∈ L.nextA) ∧
  (∀ j ∈ L.seen, j ∈ L.nextA)

theorem spreadNeighbor_inv (p : FireParams ℝ) (dt : ℝ) (rngF : ℕ → ℝ) (idx : ℕ)
    (L : LoopSt) (n : ℤ × ℤ × ℝ) (hinv : LoopInv L) :
    LoopInv (spreadNeighbor p dt rngF idx L n) := by
  obtain ⟨h1, h2, h3, h4, h5⟩ := hinv
  unfold spreadNeighbor
  dsimp only
  split_ifs with hg hU hr hs
  · -- ignited but already seen: impossible, seen cells sit in nextA and burn
    exact absurd (h3 _ (h5 _ hs)) (by rw [hU]; decide)
  · -- fresh ignition: the neighbour joins nextA and seen
    set nidx := toIdx p (neighGx p idx n.1) (neighGy p idx n.2.1) with hnidx
    have hnA : nidx ∉ L.fs.active := fun hm => absurd (h2 _ hm) (by rw [hU]; decide)
    have hnN : nidx ∉ L.nextA := fun hm => absurd (h3 _ hm) (by rw [hU]; decide)
    refine ⟨?_, ?_, ?_, ?_, ?_⟩ <;> dsimp only
    · rw [← List.append_assoc]
      rw [(List.perm_append_singleton _ _).nodup_iff, List.nodup_cons]
      exact ⟨by simp [List.mem_append, hnA, hnN], h1⟩
    · intro j hj
      rcases eq_or_ne j nidx with rfl | hne
      · exact absurd hj hnA
      · rw [Function.update_noteq hne]
        exact h2 j hj
    · intro j hj
      rcases List.mem_append.1 hj with hj2 | hj2
      · rcases eq_or_ne j nidx with rfl | hne
        · exact absurd hj2 hnN
        · rw [Function.update_noteq hne]
          exact h3 j hj2
      · rw [List.mem_singleton.1 hj2, Function.update_same]
    · intro j hj
      rcases eq_or_ne j nidx with rfl | hne
      · exact Or.inr (List.mem_append.2 (Or.inr (List.mem_singleton.2 rfl)))
      · rw [Function.update_noteq hne] at hj
        rcases h4 j hj with hc | hc
        · exact Or.inl hc
        · exact Or.inr (List.mem_append.2 (Or.inl hc))
    · intro j hj
      rcases List.mem_append.1 hj with hj2 | hj2
      · exact List.mem_append.2 (Or.inl (h5 j hj2))
      · exact List.mem_append.2 (Or.inr hj2)
  · exact ⟨h1, h2, h3, h4, h5⟩
  · exact ⟨h1, h2, h3, h4, h5⟩
  · exact ⟨h1, h2, h3, h4, h5⟩

theorem igniteCell_inv (p : FireParams ℝ) (L : LoopSt) (gx gy : ℤ) (hinv : LoopInv L) :
    LoopInv { L with fs := igniteCell p L.fs gx gy } := by
  obtain ⟨h1, h2, h3, h4, h5⟩ := hinv
  unfold igniteCell
  split_ifs with hg hUf
  · set tidx := toIdx p gx gy with htidx
    have hU : L.fs.state tidx = Cell.UNBURNED := hUf.1
    have hnA : tidx ∉ L.fs.active := fun hm => absurd (h2 _ hm) (by rw [hU]; decide)
    have hnN : tidx ∉ L.nextA := fun hm => absurd (h3 _ hm) (by rw [hU]; decide)
    refine ⟨?_, ?_, ?_, ?_, h5⟩ <;> dsimp only
    · rw [List.append_assoc, List.singleton_append, List.nodup_middle, List.nodup_cons]
      exact ⟨by simp [List.mem_append, hnA, hnN], h1⟩
    · intro j hj
      rcases List.mem_append.1 hj with hj2 | hj2
      · rcases eq_or_ne j tidx with rfl | hne
        · exact absurd hj2 hnA
        · rw [Function.update_noteq hne]
          exact h2 j hj2
      · rw [List.mem_singleton.1 hj2, Function.update_same]
    · intro j hj
      rcases eq_or_ne j tidx with rfl | hne
      · exact absurd hj hnN
      · rw [Function.update_noteq hne]
        exact h3 j hj
    · intro j hj
      rcases eq_or_ne j tidx with rfl | hne
      · exact Or.inl (List.mem_append.2 (Or.inr (List.mem_singleton.2 rfl)))
      · rw [Function.update_noteq hne] at hj
        rcases h4 j hj with hc | hc
        · exact Or.inl (List.mem_append.2 (Or.inl hc))
        · exact Or.inr hc
  · exact ⟨h1, h2, h3, h4, h5⟩
  · exact ⟨h1, h2, h3, h4, h5⟩

theorem emberSpot_inv (p : FireParams ℝ) (rngF : ℕ → ℝ) (rngI : ℕ → ℕ) (gx gy : ℤ)
    (L : LoopSt) (hinv : LoopInv L) :
    LoopInv { L with fs := emberSpot p rngF rngI gx gy L.fs } := by
  obtain ⟨h1, h2, h3, h4, h5⟩ := hinv
  unfold emberSpot
  dsimp only
  split_ifs <;> first
    | exact ⟨h1, h2, h3, h4, h5⟩
    | exact igniteCell_inv p { L with fs := { L.fs with kF := L.fs.kF + 1, kI := L.fs.kI + 1 } }
        _ _ ⟨h1, h2, h3, h4, h5⟩

theorem cellStep_inv (p : FireParams ℝ) (dt : ℝ) (liveTags : List ℕ) (rngF : ℕ → ℝ)
    (rngI : ℕ → ℕ) (L : LoopSt) (idx : ℕ) (rest : List ℕ)
    (hact : L.fs.active = idx :: rest) (hinv : LoopInv L) :
    LoopInv (cellStep p dt liveTags rngF rngI { L with fs := { L.fs with active := rest } } idx) := by
  obtain ⟨h1, h2, h3, h4, h5⟩ := hinv
  rw [hact] at h1 h2 h4
  rw [List.cons_append, List.nodup_cons] at h1
  obtain ⟨hidxout, h1'⟩ := h1
  have hB : L.fs.state idx = Cell.BURNING := h2 idx (List.mem_cons_self idx rest)
  have hidxrest : idx ∉ rest := fun hm => hidxout (List.mem_append.2 (Or.inl hm))
  have hidxnext : idx ∉ L.nextA := fun hm => hidxout (List.mem_append.2 (Or.inr hm))
  unfold cellStep
  dsimp only
  rw [if_neg (not_not_intro hB)]
  have hkeepInv : ∀ btf : ℕ → ℝ, LoopInv
      ⟨{ L.fs with burn_t := btf, active := rest }, L.nextA ++ [idx], L.seen⟩ := by
    intro btf
    refine ⟨?_, ?_, ?_, ?_, ?_⟩ <;> dsimp only
    · rw [← List.append_assoc, (List.perm_append_singleton _ _).nodup_iff, List.nodup_cons]
      exact ⟨hidxout, h1'⟩
    · intro j hj
      exact h2 j (List.mem_cons_of_mem idx hj)
    · intro j hj
      rcases List.mem_append.1 hj with hj2 | hj2
      · exact h3 j hj2
      · rw [List.mem_singleton.1 hj2]; exact hB
    · intro j hj
      rcases h4 j hj with hc | hc
      · rcases List.mem_cons.1 hc with rfl | hc2
        · exact Or.inr (List.mem_append.2 (Or.inr (List.mem_singleton.2 rfl)))
        · exact Or.inl hc2
      · exact Or.inr (List.mem_append.2 (Or.inl hc))
    · intro j hj
      exact List.mem_append.2 (Or.inl (h5 j hj))
  have hburnInv : ∀ btf : ℕ → ℝ, LoopInv
      ⟨{ L.fs with burn_t := btf, state := Function.update L.fs.state idx Cell.BURNED, ever_burned := Function.update L.fs.ever_burned idx true, active := rest }, L.nextA, L.seen⟩ := by
    intro btf
    refine ⟨?_, ?_, ?_, ?_, ?_⟩ <;> dsimp only
    · exact h1'
    · intro j hj
      rcases eq_or_ne j idx with rfl | hne
      · exact absurd hj hidxrest
      · rw [Function.update_noteq hne]
        exact h2 j (List.mem_cons_of_mem idx hj)
    · intro j hj
      rcases eq_or_ne j idx with rfl | hne
      · exact absurd hj hidxnext
      · rw [Function.update_noteq hne]
        exact h3 j hj
    · intro j hj
      rcases eq_or_ne j idx with rfl | hne
      · rw [Function.update_same] at hj; exact absurd hj (by decide)
      · rw [Function.update_noteq hne] at hj
        rcases h4 j hj with hc | hc
        · rcases List.mem_cons.1 hc with rfl | hc2
          · exact absurd rfl hne
          · exact Or.inl hc2
        · exact Or.inr hc
    · exact h5
  split_ifs <;> first
    | exact hkeepInv _
    | exact hburnInv _
    | exact emberSpot_inv p rngF rngI _ _ _
        (foldl_pres LoopInv (spreadNeighbor p dt rngF idx)
          (fun b a hb => spreadNeighbor_inv p dt rngF idx b a hb) (neighFire p) _ (hkeepInv _))
    | exact foldl_pres LoopInv (spreadNeighbor p dt rngF idx)
        (fun b a hb => spreadNeighbor_inv p dt rngF idx b a hb) (neighFire p) _ (hkeepInv _)

theorem fireLoop_invariant (p : FireParams ℝ) (dt : ℝ) (liveTags : List ℕ) (rngF : ℕ → ℝ)
    (rngI : ℕ → ℕ) :
    ∀ (n : ℕ) (L : LoopSt), L.fs.active.length + unburnedCnt (p.GW * p.GH) L.fs.state ≤ n →
      (fireLoop p dt liveTags rngF rngI L).fs.active = [] ∧
      (LoopInv L → LoopInv (fireLoop p dt liveTags rngF rngI L)) := by
  intro n
  induction n with
  | zero =>
    intro L hm
    have hnil : L.fs.active = [] := List.eq_nil_of_length_eq_zero (by omega)
    rw [fireLoop, dif_pos hnil]
    exact ⟨hnil, fun h => h⟩
  | succ n ih =>
    intro L hm
    by_cases hnil : L.fs.active = []
    · rw [fireLoop, dif_pos hnil]
      exact ⟨hnil, fun h => h⟩
    · rw [fireLoop, dif_neg hnil]
      have hcons : L.fs.active = L.fs.active.head hnil :: L.fs.active.tail :=
        (List.head_cons_tail _ hnil).symm
      have hmeas := cellStep_meas p dt liveTags rngF rngI
        { L with fs := { L.fs with active := L.fs.active.tail } } (L.fs.active.head hnil)
      have hlen : L.fs.active.tail.length = L.fs.active.length - 1 := List.length_tail _
      have hpos : 0 < L.fs.active.length := List.length_pos.mpr hnil
      have hmeas2 : (cellStep p dt liveTags rngF rngI
            { L with fs := { L.fs with active := L.fs.active.tail } }
            (L.fs.active.head hnil)).fs.active.length
          + unburnedCnt (p.GW * p.GH) (cellStep p dt liveTags rngF rngI
            { L with fs := { L.fs with active := L.fs.active.tail } }
            (L.fs.active.head hnil)).fs.state
          ≤ L.fs.active.tail.length + unburnedCnt (p.GW * p.GH) L.fs.state := hmeas
      have hle : (cellStep p dt liveTags rngF rngI
            { L with fs := { L.fs with active := L.fs.active.tail } }
            (L.fs.active.head hnil)).fs.active.length
          + unburnedCnt (p.GW * p.GH) (cellStep p dt liveTags rngF rngI
            { L with fs := { L.fs with active := L.fs.active.tail } }
            (L.fs.active.head hnil)).fs.state ≤ n :=
        le_trans hmeas2 (by omega)
      obtain ⟨ha, hi⟩ := ih _ hle
      exact ⟨ha, fun hinv => hi (cellStep_inv p dt liveTags rngF rngI L _ _ hcons hinv)⟩

theorem updateIncGo_frame [FloorRing K] (p : FireParams K) (dt : K) :
    ∀ (incs : List (Incident K)) (st : FireState K),
      ((updateIncGo p dt incs st).2).state = st.state ∧
      ((updateIncGo p dt incs st).2).active = st.active ∧
      ((updateIncGo p dt incs st).2).sim_t = st.sim_t ∧
      ((updateIncGo p dt incs st).2).regen_accum = st.regen_accum ∧
      ((updateIncGo p dt incs st).2).kF = st.kF := by
  intro incs
  induction incs with
  | nil => intro st; exact ⟨rfl, rfl, rfl, rfl, rfl⟩
  | cons a rest ih =>
    intro st
    simp only [updateIncGo]
    split_ifs with h1 h2 h3 <;> simp [ih]

theorem updateIncidents_frame [FloorRing K] (p : FireParams K) (st : FireState K) (dt : K) :
    (updateIncidents p st dt).state = st.state ∧
    (updateIncidents p st dt).active = st.active ∧
    (updateIncidents p st dt).sim_t = st.sim_t ∧
    (updateIncidents p st dt).regen_accum = st.regen_accum ∧
    (updateIncidents p st dt).kF = st.kF := by
  unfold updateIncidents
  exact updateIncGo_frame p dt st.incidents st

theorem recoverCellStep_frame (p : FireParams K) (rngF : ℕ → K) (step : K)
    (st : FireState K) (idx : ℕ) :
    (recoverCellStep p rngF step st idx).active = st.active ∧
    ∀ j, ((recoverCellStep p rngF step st idx).state j = Cell.BURNING ↔
      st.state j = Cell.BURNING) := by
  unfold recoverCellStep
  split_ifs with h1 h2
  · refine ⟨rfl, fun j => ?_⟩
    dsimp only
    rcases eq_or_ne j idx with rfl | hne
    · rw [Function.update_same, h1]
      constructor <;> intro h <;> exact absurd h (by decide)
    · rw [Function.update_noteq hne]
  · exact ⟨rfl, fun j => Iff.rfl⟩
  · exact ⟨rfl, fun j => Iff.rfl⟩

theorem recoverBurned_frame (p : FireParams K) (rngF : ℕ → K) (st : FireState K) (dt : K) :
    (recoverBurned p rngF st dt).active = st.active ∧
    ∀ j, ((recoverBurned p rngF st dt).state j = Cell.BURNING ↔ st.state j = Cell.BURNING) := by
  unfold recoverBurned
  split_ifs with h1 h2
  · exact ⟨rfl, fun j => Iff.rfl⟩
  · exact ⟨rfl, fun j => Iff.rfl⟩
  · refine foldl_pres
      (fun st2 => st2.active = st.active ∧
        ∀ j, (st2.state j = Cell.BURNING ↔ st.state j = Cell.BURNING))
      (recoverCellStep p rngF (st.regen_accum + dt)) ?_ _ _ ⟨rfl, fun j => Iff.rfl⟩
    intro b a hb
    obtain ⟨hba, hbs⟩ := hb
    obtain ⟨hca, hcs⟩ := recoverCellStep_frame p rngF (st.regen_accum + dt) b a
    exact ⟨hca.trans hba, fun j => (hcs j).trans (hbs j)⟩

/-- The part of `Fire.update` after the incident pass: an empty frontier
only ticks recovery; otherwise the live suppression tags are collected, the
frontier loop rebuilds `active`, recovery ticks, and an undetected episode
end is counted. -/
noncomputable def fireUpdateCore (p : FireParams ℝ) (rngF : ℕ → ℝ) (rngI : ℕ → ℕ)
    (st2 : FireState ℝ) (dt : ℝ) : FireState ℝ :=
  if st2.active = [] then recoverBurned p rngF st2 dt
  else
    let liveTags := (st2.incidents.filter (fun inc => inc.zone_live)).map (fun inc => inc.id)
    let out := fireLoop p dt liveTags rngF rngI { fs := st2, nextA := [], seen := [] }
    let st3 := { out.fs with active := out.nextA }
    let st4 := recoverBurned p rngF st3 dt
    if st4.active = [] ∧ st4.episode_has_incident = false then
      { st4 with undetected_count := st4.undetected_count + 1, episode_has_incident := false }
    else st4

/-- The engine tick `Fire.update`: clears the episode flag when idle,
advances `sim_t`, runs the incident pass, and hands over to the frontier
rebuild and recovery. -/
noncomputable def fireUpdate (p : FireParams ℝ) (rngF : ℕ → ℝ) (rngI : ℕ → ℕ)
    (st : FireState ℝ) (dt : ℝ) : FireState ℝ :=
  let st0 := if st.active = [] then { st with episode_has_incident := false } else st
  let st1 := { st0 with sim_t := st0.sim_t + dt }
  fireUpdateCore p rngF rngI (updateIncidents p st1 dt) dt

theorem fireUpdateCore_frontier (p : FireParams ℝ) (rngF : ℕ → ℝ) (rngI : ℕ → ℕ)
    (st2 : FireState ℝ) (dt : ℝ)
    (hnd2 : st2.active.Nodup)
    (hiff2 : ∀ j, st2.state j = Cell.BURNING ↔ j ∈ st2.active) :
    (fireUpdateCore p rngF rngI st2 dt).active.Nodup ∧
    ∀ j, ((fireUpdateCore p rngF rngI st2 dt).state j = Cell.BURNING ↔
      j ∈ (fireUpdateCore p rngF rngI st2 dt).active) := by
  unfold fireUpdateCore
  by_cases hB : st2.active = []
  · rw [if_pos hB]
    obtain ⟨hra, hrs⟩ := recoverBurned_frame p rngF st2 dt
    rw [hra, hB]
    refine ⟨List.nodup_nil, fun j => ?_⟩
    rw [hrs j, hiff2 j, hB]
  · rw [if_neg hB]
    dsimp only
    have hinv0 : LoopInv { fs := st2, nextA := [], seen := [] } := by
      refine ⟨by simpa using hnd2, fun j hj => (hiff2 j).2 hj,
        fun j hj => absurd hj (List.not_mem_nil j),
        fun j hj => Or.inl ((hiff2 j).1 hj),
        fun j hj => absurd hj (List.not_mem_nil j)⟩
    obtain ⟨hnil, hpres⟩ := fireLoop_invariant p dt
      ((st2.incidents.filter (fun inc => inc.zone_live)).map (fun inc => inc.id)) rngF rngI
      ((({ fs := st2, nextA := [], seen := [] } : LoopSt)).fs.active.length
        + unburnedCnt (p.GW * p.GH) (({ fs := st2, nextA := [], seen := [] } : LoopSt)).fs.state)
      { fs := st2, nextA := [], seen := [] } le_rfl
    obtain ⟨o1, o2, o3, o4, o5⟩ := hpres hinv0
    rw [hnil] at o1 o4
    have hnd3 : (fireLoop p dt
        ((st2.incidents.filter (fun inc => inc.zone_live)).map (fun inc => inc.id)) rngF rngI
        { fs := st2, nextA := [], seen := [] }).nextA.Nodup := by simpa using o1
    have hiff3 : ∀ j, ((fireLoop p dt
        ((st2.incidents.filter (fun inc => inc.zone_live)).map (fun inc => inc.id)) rngF rngI
        { fs := st2, nextA := [], seen := [] }).fs.state j = Cell.BURNING ↔
        j ∈ (fireLoop p dt
        ((st2.incidents.filter (fun inc => inc.zone_live)).map (fun inc => inc.id)) rngF rngI
        { fs := st2, nextA := [], seen := [] }).nextA) := by
      intro j
      exact ⟨fun h => (o4 j h).resolve_left (List.not_mem_nil j), fun h => o3 j h⟩
    obtain ⟨hra, hrs⟩ := recoverBurned_frame p rngF
      { (fireLoop p dt
          ((st2.incidents.filter (fun inc => inc.zone_live)).map (fun inc => inc.id)) rngF rngI
          { fs := st2, nextA := [], seen := [] }).fs with
        active := (fireLoop p dt
          ((st2.incidents.filter (fun inc => inc.zone_live)).map (fun inc => inc.id)) rngF rngI
          { fs := st2, nextA := [], seen := [] }).nextA } dt
    split_ifs with hlast
    · refine ⟨by rw [hra]; exact hnd3, fun j => ?_⟩
      rw [hra]
      exact (hrs j).trans (hiff3 j)
    · refine ⟨by rw [hra]; exact hnd3, fun j => ?_⟩
      rw [hra]
      exact (hrs j).trans (hiff3 j)

/-- Claim C3: if the active frontier holds exactly the BURNING cells (each
once) before a tick, the rebuilt frontier again holds exactly the BURNING
cells (each once) after the tick — burned-out and recovered cells are gone,
and spread-ignited and ember-spotted cells are present without
duplicates. -/
theorem C3_frontier_exact (p : FireParams ℝ) (rngF : ℕ → ℝ) (rngI : ℕ → ℕ)
    (st : FireState ℝ) (dt : ℝ)
    (hnd : st.active.Nodup)
    (hiff : ∀ j, st.state j = Cell.BURNING ↔ j ∈ st.active) :
    (fireUpdate p rngF rngI st dt).active.Nodup ∧
    ∀ j, ((fireUpdate p rngF rngI st dt).state j = Cell.BURNING ↔
      j ∈ (fireUpdate p rngF rngI st dt).active) := by
  unfold fireUpdate
  dsimp only
  by_cases hA : st.active = []
  · rw [if_pos hA]
    obtain ⟨hus, hua, -, -, -⟩ := updateIncidents_frame p
      { st with episode_has_incident := false, sim_t := st.sim_t + dt } dt
    refine fireUpdateCore_frontier p rngF rngI _ dt ?_ ?_
    · rw [hua]; exact hnd
    · intro j; rw [hus, hua]; exact hiff j
  · rw [if_neg hA]
    obtain ⟨hus, hua, -, -, -⟩ := updateIncidents_frame p
      { st with sim_t := st.sim_t + dt } dt
    refine fireUpdateCore_frontier p rngF rngI _ dt ?_ ?_
    · rw [hua]; exact hnd
    · intro j; rw [hus, hua]; exact hiff j

/-- Claim C2: a BURNING cell tagged by a live suppression zone never
ignites any neighbour and never produces an ember spot during its loop
visit: no other cell changes state, no ignition time is stamped, nothing is
appended to the iterated list or the seen set, no randomness is consumed,
and the frontier gains at most the cell itself. -/
theorem C2_suppressed_no_spread_or_spot (p : FireParams ℝ) (dt : ℝ) (liveTags : List ℕ)
    (rngF : ℕ → ℝ) (rngI : ℕ → ℕ) (L : LoopSt) (idx : ℕ)
    (htag : L.fs.tag idx ∈ liveTags) :
    (cellStep p dt liveTags rngF rngI L idx).fs.t_ignited = L.fs.t_ignited ∧
    (∀ j, j ≠ idx → (cellStep p dt liveTags rngF rngI L idx).fs.state j = L.fs.state j) ∧
    (cellStep p dt liveTags rngF rngI L idx).fs.active = L.fs.active ∧
    (cellStep p dt liveTags rngF rngI L idx).fs.kF = L.fs.kF ∧
    (cellStep p dt liveTags rngF rngI L idx).fs.kI = L.fs.kI ∧
    (cellStep p dt liveTags rngF rngI L idx).seen = L.seen ∧
    ((cellStep p dt liveTags rngF rngI L idx).nextA = L.nextA ∨
      (cellStep p dt liveTags rngF rngI L idx).nextA = L.nextA ++ [idx]) := by
  unfold cellStep
  dsimp only
  split_ifs <;> first
    | exact ⟨rfl, fun j _ => rfl, rfl, rfl, rfl, rfl, Or.inl rfl⟩
    | exact ⟨rfl, fun j hj => Function.update_noteq hj _ _, rfl, rfl, rfl, rfl, Or.inl rfl⟩
    | exact ⟨rfl, fun j _ => rfl, rfl, rfl, rfl, rfl, Or.inr rfl⟩

/-- A concrete real-valued parameter set for witnesses. -/
noncomputable def pR : FireParams ℝ :=
  { GW := 2, GH := 1, cell := 1, ros_scale := 1, R0 := 1, k_ignite := 1, wind_speed := 1,
    wind_dir_deg := 0, c_w := 1, b_w := 2, slope_deg := 0, slope_dir_deg := 0, c_s := 0,
    b_s := 2, moisture_live := 0, moisture_ext := 1, fuel_mean := 1, fuel_var := 0,
    burn_duration := 10, spot_chance := 0, spot_max_cells := 1, quench := 6, merge_r2 := 100,
    monitor_r := 10, zone_r0 := 5, delay_s := 2, grow_v := 1, recover_T := 25, px_to_m := 1 }

/-- An idle all-UNBURNED engine state for witnesses. -/
noncomputable def stC3 : FireState ℝ :=
  { state := fun _ => Cell.UNBURNED, burn_t := fun _ => 0, t_ignited := fun _ => none,
    fuel := fun _ => 1, moist := fun _ => 0, tag := fun _ => 0, sim_t := 0, active := [],
    regen_t := fun _ => 0, regen_accum := 0, ever_burned := fun _ => false, incidents := [],
    next_incident_id := 1, det_times := [], detect_areas := [], final_areas := [],
    dispatch_count := 0, extinguished_count := 0, user_ignitions := 0, undetected_count := 0,
    episode_has_incident := false, kF := 0, kI := 0 }

/-- A loop state whose cells all carry live tag 1, for the C2 witness. -/
noncomputable def LC2 : LoopSt :=
  { fs := { stC3 with state := fun _ => Cell.BURNING, tag := fun _ => 1, active := [0] },
    nextA := [], seen := [] }

/-- Witness for claim C3 at a concrete idle state. -/
theorem C3_frontier_exact_witness :
    (fireUpdate pR (fun _ => 0) (fun _ => 0) stC3 1).active.Nodup ∧
    ∀ j, ((fireUpdate pR (fun _ => 0) (fun _ => 0) stC3 1).state j = Cell.BURNING ↔
      j ∈ (fireUpdate pR (fun _ => 0) (fun _ => 0) stC3 1).active) :=
  C3_frontier_exact pR (fun _ => 0) (fun _ => 0) stC3 1 (by simp [stC3])
    (fun j => by simp [stC3])

/-- Witness for claim C2 at a concrete tagged loop state. -/
theorem C2_suppressed_no_spread_or_spot_witness :
    (cellStep pR 1 [1] (fun _ => 0) (fun _ => 0) LC2 0).fs.t_ignited = LC2.fs.t_ignited ∧
    (∀ j, j ≠ 0 → (cellStep pR 1 [1] (fun _ => 0) (fun _ => 0) LC2 0).fs.state j
      = LC2.fs.state j) ∧
    (cellStep pR 1 [1] (fun _ => 0) (fun _ => 0) LC2 0).fs.active = LC2.fs.active ∧
    (cellStep pR 1 [1] (fun _ => 0) (fun _ => 0) LC2 0).fs.kF = LC2.fs.kF ∧
    (cellStep pR 1 [1] (fun _ => 0) (fun _ => 0) LC2 0).fs.kI = LC2.fs.kI ∧
    (cellStep pR 1 [1] (fun _ => 0) (fun _ => 0) LC2 0).seen = LC2.seen ∧
    ((cellStep pR 1 [1] (fun _ => 0) (fun _ => 0) LC2 0).nextA = LC2.nextA ∨
      (cellStep pR 1 [1] (fun _ => 0) (fun _ => 0) LC2 0).nextA = LC2.nextA ++ [0]) :=
  C2_suppressed_no_spread_or_spot pR 1 [1] (fun _ => 0) (fun _ => 0) LC2 0 (by simp [LC2, stC3])

theorem windUnit_pR : windUnit pR = (1, 0) := by
  simp [windUnit, radians, pR, Real.cos_zero, Real.sin_zero]

theorem slopeUnit_pR : slopeUnit pR = (1, 0) := by
  simp [slopeUnit, radians, pR, Real.cos_zero, Real.sin_zero]

theorem claim_eval_pR : igniteProbClaim pR 1 0 1 1 1 0 = 1 - Real.exp (-2) := by
  unfold igniteProbClaim
  rw [windUnit_pR, slopeUnit_pR]
  norm_num [pR, Real.sqrt_one, Real.one_rpow]

theorem code_eval_pR :
    spreadIgniteProb pR 1 0 1 1 1 0 = 1 - Real.exp (-(1 + 1/(1 + 1/10^12))) := by
  unfold spreadIgniteProb rosDirectional
  rw [windUnit_pR, slopeUnit_pR]
  have hpos : (0:ℝ) < 1/(1 + 1/10^12) := by positivity
  norm_num [pR, Real.sqrt_one, Real.one_rpow, Real.rpow_one, max_eq_right hpos.le]

/-- Claim C1 (counterexample): at unit parameters with wind blowing along
the x-axis, the ignition probability the spread loop computes for the
east neighbour differs from the spec's formula — the code normalises the
direction vector by `hypot + 1e-12`, so its wind-alignment factor is
`1/(1+1e-12)` instead of the spec's exact `1`. -/
theorem C1_spread_probability_counterexample :
    spreadIgniteProb pR 1 0 1 1 1 0 ≠ igniteProbClaim pR 1 0 1 1 1 0 := by
  rw [claim_eval_pR, code_eval_pR]
  intro h
  have h2 : Real.exp (-(1 + 1/(1 + 1/10^12))) = Real.exp (-2) := by linarith
  have h3 := Real.exp_injective h2
  have h4 : (1:ℝ)/(1 + 1/10^12) = 1 := by linarith
  rw [div_eq_one_iff_eq (by positivity : (0:ℝ) < 1 + 1/10^12).ne'] at h4
  norm_num at h4

/-- Claim C1 (amended): for an in-grid UNBURNED neighbour, the spread loop
ignites it exactly when the next uniform draw falls below the ignition
probability, stamping `t_ignited = sim_t`, one draw being consumed either
way; and that probability is the spec's formula corrected to use the
direction vector scaled by `hypot + 1e-12` and the distance guarded by
`max(dpx, 1e-6)`. -/
theorem C1_spread_probability_amended (p : FireParams ℝ) (dt : ℝ) (rngF : ℕ → ℝ) (idx : ℕ)
    (L : LoopSt) (n : ℤ × ℤ × ℝ)
    (hg : inGrid p (neighGx p idx n.1) (neighGy p idx n.2.1))
    (hU : L.fs.state (toIdx p (neighGx p idx n.1) (neighGy p idx n.2.1)) = Cell.UNBURNED) :
    ((spreadNeighbor p dt rngF idx L n).fs.state
        (toIdx p (neighGx p idx n.1) (neighGy p idx n.2.1)) = Cell.BURNING ↔
      rngF L.fs.kF < spreadIgniteProb p n.1 n.2.1 n.2.2 dt
        (L.fs.fuel (toIdx p (neighGx p idx n.1) (neighGy p idx n.2.1)))
        (L.fs.moist (toIdx p (neighGx p idx n.1) (neighGy p idx n.2.1)))) ∧
    (rngF L.fs.kF < spreadIgniteProb p n.1 n.2.1 n.2.2 dt
        (L.fs.fuel (toIdx p (neighGx p idx n.1) (neighGy p idx n.2.1)))
        (L.fs.moist (toIdx p (neighGx p idx n.1) (neighGy p idx n.2.1))) →
      (spreadNeighbor p dt rngF idx L n).fs.t_ignited
        (toIdx p (neighGx p idx n.1) (neighGy p idx n.2.1)) = some L.fs.sim_t) ∧
    (spreadNeighbor p dt rngF idx L n).fs.kF = L.fs.kF + 1 ∧
    ∀ (dx dy : ℤ) (dpx dtv f m : ℝ),
      spreadIgniteProb p dx dy dpx dtv f m = igniteProbClaimEps p dx dy dpx dtv f m := by
  have hfml : ∀ (dx dy : ℤ) (dpx dtv f m : ℝ),
      spreadIgniteProb p dx dy dpx dtv f m = igniteProbClaimEps p dx dy dpx dtv f m := by
    intro dx dy dpx dtv f m
    rfl
  unfold spreadNeighbor
  dsimp only
  rw [if_pos hg, if_pos hU]
  split_ifs with hr hs
  · exact ⟨⟨fun _ => hr, fun _ => Function.update_same _ _ _⟩,
      fun _ => Function.update_same _ _ _, rfl, hfml⟩
  · exact ⟨⟨fun _ => hr, fun _ => Function.update_same _ _ _⟩,
      fun _ => Function.update_same _ _ _, rfl, hfml⟩
  · refine ⟨⟨fun h => ?_, fun h => absurd h hr⟩, fun h => absurd h hr, rfl, hfml⟩
    rw [hU] at h
    exact absurd h (by decide)

/-- An all-UNBURNED loop state for the C1 witness. -/
noncomputable def LC1 : LoopSt := { fs := stC3, nextA := [], seen := [] }

/-- Witness for the amended C1 theorem at the east neighbour of cell 0. -/
theorem C1_spread_probability_amended_witness :
    ((spreadNeighbor pR 1 (fun _ => 0) 0 LC1 (1, 0, 1)).fs.state
        (toIdx pR (neighGx pR 0 1) (neighGy pR 0 0)) = Cell.BURNING ↔
      (0:ℝ) < spreadIgniteProb pR 1 0 1 1 1 0) ∧
    ((0:ℝ) < spreadIgniteProb pR 1 0 1 1 1 0 →
      (spreadNeighbor pR 1 (fun _ => 0) 0 LC1 (1, 0, 1)).fs.t_ignited
        (toIdx pR (neighGx pR 0 1) (neighGy pR 0 0)) = some 0) ∧
    (spreadNeighbor pR 1 (fun _ => 0) 0 LC1 (1, 0, 1)).fs.kF = 1 ∧
    ∀ (dx dy : ℤ) (dpx dtv f m : ℝ),
      spreadIgniteProb pR dx dy dpx dtv f m = igniteProbClaimEps pR dx dy dpx dtv f m :=
  C1_spread_probability_amended pR 1 (fun _ => 0) 0 LC1 (1, 0, 1)
    (by norm_num [inGrid, neighGx, neighGy, pR]) rfl
